import Mathlib

/-! Health-check metadata (`common/healthcheck/metaData.go`).

A shallow embedding of the `MetaData` tracker: the record of which outbound
tags were checked, and the lazily probed, cached verdict on network
connectivity.

Modelling decisions.

* The embedded `sync.Mutex` is held from the first to the last statement of
  each of the four exported methods, so every method body is one atomic step
  on the state; `Lock`/`Unlock` do not appear in the sequential model.
* `connected` is a Go `int`; it is only ever assigned the constants `0`, `1`
  and `-1` and compared with `0`, so it is an `Int` here.
* `checked` is a Go `map[string]bool`: a finite map. It is a function
  `String → Option Bool`; `none` is an absent key. Reading an absent key
  yields the zero value `false`.
* `net/http` is outside the repository. One run of `checkNetwork` sees it
  through a `Net` value: whether the URL parses (the only way
  `http.NewRequest` with the constant method `HEAD` and a nil body fails) and
  what `client.Do` returns. Each `Connected` call receives its own `Net`, so
  the network may behave differently at every call.
* `Probes` is an instrumentation record (not a field of the Go struct): the
  number of `checkNetwork` executions and the requests handed to `client.Do`.
* Concurrent callers of `Connected` are modelled by `Conc`: the tracker, the
  state of the mutex, and one program counter per goroutine; a schedule
  interleaves the statements of the method body. Every access to the fields
  lies between `Lock` and `Unlock`, so interleaving at statement level loses
  no behaviour.
-/

namespace Healthcheck

/-! ## Library types seen by the source -/

/-- A `context.Context`, identified up to what the source can observe:
either `context.Background()` or a caller-supplied scope. -/
inductive Context where
  | background
  | scope (id : Nat)
deriving DecidableEq, Repr

/-- An `*http.Request`: method, target and the context it carries. -/
structure Request where
  ctx : Context
  method : String
  url : String
deriving DecidableEq, Repr

/-- An `*http.Response`; only the status code is of interest. -/
structure Response where
  StatusCode : Int
deriving DecidableEq, Repr

/-- An `*http.Client`; the source sets only `Timeout`. -/
structure Client where
  Timeout : Nat
deriving DecidableEq, Repr

/-- What one run of `checkNetwork` sees of the world outside the package.
`TCPTimeout` is the constant `C.TCPTimeout` of the `constant` package (not
part of the source file), `parseURL` tells whether the target parses as a
URL, `Do` is the behaviour of `client.Do`. -/
structure Net where
  TCPTimeout : Nat
  parseURL : String → Bool
  Do : Client → Request → Except String Response

/-- The constant `http.MethodHead`. -/
def MethodHead : String := "HEAD"

/-- The call `http.NewRequest(method, url, nil)`: it is
`NewRequestWithContext` at `context.Background()`, and with a valid constant
method and nil body it fails exactly when the URL does not parse. -/
def NewRequest (net : Net) (method url : String) : Except String Request :=
  if net.parseURL url then
    .ok { ctx := Context.background, method := method, url := url }
  else
    .error "parse error"

/-! ## The tracker -/

/-- The Go struct `MetaData` (without the embedded mutex). -/
structure MetaData where
  Context : Healthcheck.Context
  connectivityURL : String
  /-- The value 0 is unknown, a positive value connected, a negative value
  disconnected. -/
  connected : Int
  checked : String → Option Bool

/-- Instrumentation: how often `checkNetwork` ran and which requests were
handed to `client.Do` (most recent first). -/
structure Probes where
  calls : Nat
  sent : List Request
deriving DecidableEq, Repr

/-- The function `NewMetaData`: `connected` takes the zero value, `checked`
is the empty map. -/
def NewMetaData (ctx : Context) (connectivityURL : String) : MetaData :=
  { Context := ctx
    connectivityURL := connectivityURL
    connected := 0
    checked := fun _ => none }

/-- Reading `m[k]` on a Go `map[string]bool`: the zero value for an absent
key. -/
def mapGet (m : String → Option Bool) (k : String) : Bool :=
  (m k).getD false

/-- The assignment `m[k] = v` on a Go map. -/
def mapSet (m : String → Option Bool) (k : String) (v : Bool) :
    String → Option Bool :=
  fun k' => if k' = k then some v else m k'

/-- The method `ReportChecked`: `c.checked[tag] = true`. -/
def MetaData.ReportChecked (c : MetaData) (tag : String) : MetaData :=
  { c with checked := mapSet c.checked tag true }

/-- The method `Checked`: `return c.checked[tag]`; the receiver is returned
as it is left by the call. -/
def MetaData.Checked (c : MetaData) (tag : String) : Bool × MetaData :=
  (mapGet c.checked tag, c)

/-- The method `ReportConnected`: `c.connected = 1`. -/
def MetaData.ReportConnected (c : MetaData) : MetaData :=
  { c with connected := 1 }

/-- The method `checkNetwork`. Entering it is counted in `calls`; the request
given to `client.Do` is recorded in `sent`. The two deferred calls
(`CloseIdleConnections`, `resp.Body.Close`) release resources and do not
influence the returned value. -/
def MetaData.checkNetwork (c : MetaData) (net : Net) (p : Probes) :
    Int × Probes :=
  let p := { p with calls := p.calls + 1 }
  if c.connectivityURL = "" then
    (1, p)
  else
    let client : Client := { Timeout := net.TCPTimeout }
    match NewRequest net MethodHead c.connectivityURL with
    | .error _ => (-1, p)
    | .ok req =>
      let p := { p with sent := req :: p.sent }
      match net.Do client req with
      | .error _ => (-1, p)
      | .ok _ => (1, p)

/-- The method `Connected`: probe when nothing is known yet, store the
verdict, answer `c.connected > 0`. -/
def MetaData.Connected (c : MetaData) (net : Net) (p : Probes) :
    Bool × MetaData × Probes :=
  if c.connected = 0 then
    let r := c.checkNetwork net p
    let c := { c with connected := r.1 }
    (decide (c.connected > 0), c, r.2)
  else
    (decide (c.connected > 0), c, p)

/-! ## Sessions: sequences of method calls on one tracker -/

/-- One call of an exported method. A `Connected` call comes with the
network behaviour it would meet if it probes. -/
inductive Op where
  | ReportChecked (tag : String)
  | Checked (tag : String)
  | ReportConnected
  | Connected (net : Net)

/-- A tracker together with the probe instrumentation. -/
structure Session where
  c : MetaData
  probes : Probes

/-- A fresh session: a tracker as built by `NewMetaData`, nothing probed. -/
def Session.fresh (ctx : Context) (connectivityURL : String) : Session :=
  { c := NewMetaData ctx connectivityURL, probes := { calls := 0, sent := [] } }

/-- Perform one call; the second component is the boolean returned by the
two query methods. -/
def Session.step (s : Session) : Op → Session × Option Bool
  | .ReportChecked tag => ({ s with c := s.c.ReportChecked tag }, none)
  | .Checked tag =>
    let r := s.c.Checked tag
    ({ s with c := r.2 }, some r.1)
  | .ReportConnected => ({ s with c := s.c.ReportConnected }, none)
  | .Connected net =>
    let r := s.c.Connected net s.probes
    ({ c := r.2.1, probes := r.2.2 }, some r.1)

/-- Perform a sequence of calls, first to last. -/
def Session.exec (s : Session) (ops : List Op) : Session :=
  ops.foldl (fun s op => (s.step op).1) s

/-- The probe of `checkNetwork` fails under `net` for target `url`: building
the request fails, or `client.Do` returns an error. -/
def probeFails (net : Net) (url : String) : Bool :=
  match NewRequest net MethodHead url with
  | .error _ => true
  | .ok req =>
    match net.Do { Timeout := net.TCPTimeout } req with
    | .error _ => true
    | .ok _ => false

/-- The call is `ReportConnected`. -/
def Op.isReportConnected : Op → Bool
  | .ReportConnected => true
  | _ => false

/-- The call is `Connected`. -/
def Op.isConnected : Op → Bool
  | .Connected _ => true
  | _ => false

/-- A network on which every target parses and every request is refused. -/
def Net.unreachable : Net :=
  { TCPTimeout := 5
    parseURL := fun _ => true
    Do := fun _ _ => .error "connection refused" }

/-- A network on which every target parses and every request is answered
with the given status code. -/
def Net.answering (status : Int) : Net :=
  { TCPTimeout := 5
    parseURL := fun _ => true
    Do := fun _ _ => .ok { StatusCode := status } }

/-- A network on which no target parses as a URL. -/
def Net.malformed : Net :=
  { TCPTimeout := 5
    parseURL := fun _ => false
    Do := fun _ _ => .ok { StatusCode := 200 } }

/-- The network met by the first `Connected` call of a sequence, if the
sequence has one. -/
def firstConnected : List Op → Option Net
  | [] => none
  | .Connected net :: _ => some net
  | _ :: ops => firstConnected ops

/-! ## Goroutines calling `Connected` concurrently

The body of `Connected` is cut at its statements: `c.Lock()`, the test
`c.connected == 0`, the assignment `c.connected = c.checkNetwork()`, the
evaluation of `c.connected > 0`, and the deferred `c.Unlock()`. A schedule
picks which goroutine performs its next statement. `Lock` can only be
performed while the mutex is free; a goroutine picked while it cannot move
stays where it is. -/

/-- Where a goroutine stands inside one call of `Connected`. -/
inductive Pc where
  /-- Before `c.Lock()`. -/
  | start
  /-- The mutex is held; next is the test `c.connected == 0`. -/
  | test
  /-- The test was true; next is `c.connected = c.checkNetwork()`. -/
  | probe
  /-- Next is the evaluation of `c.connected > 0`. -/
  | ret
  /-- The value to return is computed; the deferred `c.Unlock()` is next. -/
  | unlocking (r : Bool)
  /-- The call has returned the value. -/
  | done (r : Bool)
deriving DecidableEq, Repr

/-- The goroutine is between `Lock` and `Unlock`. -/
def Pc.holds : Pc → Bool
  | .test => true
  | .probe => true
  | .ret => true
  | .unlocking _ => true
  | _ => false

/-- The call has returned. -/
def Pc.isDone : Pc → Bool
  | .done _ => true
  | _ => false

/-- The number of statements a goroutine has at most left to perform. -/
def Pc.remaining : Pc → Nat
  | .start => 5
  | .test => 4
  | .probe => 3
  | .ret => 2
  | .unlocking _ => 1
  | .done _ => 0

/-- One tracker shared by `n` goroutines, each inside one call of
`Connected`; `mutex` tells whether the embedded `sync.Mutex` is held. -/
structure Conc where
  c : MetaData
  probes : Probes
  mutex : Bool
  n : Nat
  pcs : Nat → Pc

/-- Move goroutine `i` to `pc`. -/
def setPc (pcs : Nat → Pc) (i : Nat) (pc : Pc) : Nat → Pc :=
  fun j => if j = i then pc else pcs j

/-- A fresh tracker and `n` goroutines about to call `Connected`. -/
def Conc.fresh (ctx : Context) (connectivityURL : String) (n : Nat) : Conc :=
  { c := NewMetaData ctx connectivityURL
    probes := { calls := 0, sent := [] }
    mutex := false
    n := n
    pcs := fun _ => Pc.start }

/-- Goroutine `i` performs its next statement of `Connected`, meeting the
network `net` if that statement is the probe; `none` when it cannot move
(the mutex is held by another goroutine, or the call has returned). -/
def Conc.stepThread (st : Conc) (i : Nat) (net : Net) : Option Conc :=
  if i < st.n then
    match st.pcs i with
    | .start =>
      if st.mutex then none
      else some { st with mutex := true, pcs := setPc st.pcs i Pc.test }
    | .test =>
      if st.c.connected = 0 then
        some { st with pcs := setPc st.pcs i Pc.probe }
      else
        some { st with pcs := setPc st.pcs i Pc.ret }
    | .probe =>
      let r := st.c.checkNetwork net st.probes
      some { st with c := { st.c with connected := r.1 }, probes := r.2,
                     pcs := setPc st.pcs i Pc.ret }
    | .ret =>
      some { st with
        pcs := setPc st.pcs i (Pc.unlocking (decide (st.c.connected > 0))) }
    | .unlocking r =>
      some { st with mutex := false, pcs := setPc st.pcs i (Pc.done r) }
    | .done _ => none
  else none

/-- Run a schedule: each entry names the goroutine picked and the network it
would meet. -/
def Conc.run (st : Conc) (sched : List (Nat × Net)) : Conc :=
  sched.foldl (fun st x => (st.stepThread x.1 x.2).getD st) st

/-- The statements left up to goroutine `k`. -/
def remainingUpTo (pcs : Nat → Pc) : Nat → Nat
  | 0 => 0
  | k + 1 => remainingUpTo pcs k + (pcs k).remaining

/-- The statements all goroutines together have at most left. -/
def Conc.remaining (st : Conc) : Nat :=
  remainingUpTo st.pcs st.n

/-- Every goroutine has returned. -/
def Conc.allDone (st : Conc) : Bool :=
  (List.range st.n).all fun j => (st.pcs j).isDone

/-- Mutual exclusion: the mutex is free and no goroutine is between `Lock`
and `Unlock`, or it is held and exactly one goroutine is. -/
def Conc.mutexInv (st : Conc) : Prop :=
  (st.mutex = false ∧ ∀ j, j < st.n → (st.pcs j).holds = false) ∨
  (st.mutex = true ∧ ∃ i, i < st.n ∧ (st.pcs i).holds = true ∧
    ∀ j, j < st.n → j ≠ i → (st.pcs j).holds = false)

/-- The verdict while every probe fails: either nothing is stored, nothing
was probed and no goroutine is past the probe; or the stored value is
negative, `checkNetwork` ran once, no goroutine is about to probe and no
goroutine has computed the answer true. -/
def Conc.verdictInv (st : Conc) : Prop :=
  (st.c.connected = 0 ∧ st.probes.calls = 0 ∧
    ∀ j, j < st.n →
      (st.pcs j = Pc.start ∨ st.pcs j = Pc.test ∨ st.pcs j = Pc.probe)) ∨
  (st.c.connected < 0 ∧ st.probes.calls = 1 ∧
    ∀ j, j < st.n →
      (st.pcs j ≠ Pc.probe ∧ st.pcs j ≠ Pc.unlocking true ∧
        st.pcs j ≠ Pc.done true))

/-- The invariant of a concurrent session on target `url` over failing
networks. -/
def Conc.Inv (url : String) (st : Conc) : Prop :=
  st.c.connectivityURL = url ∧ st.mutexInv ∧ st.verdictInv

/-! ## Basic facts about single steps -/

@[simp] theorem exec_nil (s : Session) : s.exec [] = s := rfl

@[simp] theorem exec_cons (s : Session) (op : Op) (ops : List Op) :
    s.exec (op :: ops) = (s.step op).1.exec ops := rfl

theorem exec_append (s : Session) (xs ys : List Op) :
    s.exec (xs ++ ys) = (s.exec xs).exec ys := by
  simp [Session.exec, List.foldl_append]

/-- The method `Connected` never touches the checked map. -/
@[simp] theorem Connected_checked (c : MetaData) (net : Net) (p : Probes) :
    (c.Connected net p).2.1.checked = c.checked := by
  unfold MetaData.Connected
  split <;> rfl

/-- The method `Connected` never touches the probe target. -/
@[simp] theorem Connected_url (c : MetaData) (net : Net) (p : Probes) :
    (c.Connected net p).2.1.connectivityURL = c.connectivityURL := by
  unfold MetaData.Connected
  split <;> rfl

/-- No call changes the probe target. -/
@[simp] theorem step_url (s : Session) (op : Op) :
    (s.step op).1.c.connectivityURL = s.c.connectivityURL := by
  cases op <;> simp [Session.step, MetaData.ReportChecked, MetaData.Checked,
    MetaData.ReportConnected]

/-- No sequence of calls changes the probe target. -/
@[simp] theorem exec_url (s : Session) (ops : List Op) :
    (s.exec ops).c.connectivityURL = s.c.connectivityURL := by
  induction ops generalizing s with
  | nil => rfl
  | cons op ops ih => rw [exec_cons, ih, step_url]

/-- Reading a key after an assignment to the map. -/
theorem mapGet_mapSet (m : String → Option Bool) (k t : String) (v : Bool) :
    mapGet (mapSet m k v) t = if t = k then v else mapGet m t := by
  unfold mapGet mapSet
  split <;> rfl

/-- One call makes `t` checked exactly when it already was or the call is
`ReportChecked t`. -/
theorem step_checked_iff (s : Session) (op : Op) (t : String) :
    mapGet (s.step op).1.c.checked t = true ↔
      mapGet s.c.checked t = true ∨ op = Op.ReportChecked t := by
  cases op with
  | ReportChecked tag =>
    simp only [Session.step, MetaData.ReportChecked, mapGet_mapSet]
    by_cases h : t = tag
    · subst h; simp
    · have h2 : ¬ tag = t := fun e => h e.symm
      simp [h, h2]
  | Checked tag => simp [Session.step, MetaData.Checked]
  | ReportConnected => simp [Session.step, MetaData.ReportConnected]
  | Connected net => simp [Session.step]

/-- A sequence of calls makes `t` checked exactly when it already was or the
sequence contains `ReportChecked t`. -/
theorem exec_checked_iff (s : Session) (ops : List Op) (t : String) :
    mapGet (s.exec ops).c.checked t = true ↔
      mapGet s.c.checked t = true ∨ Op.ReportChecked t ∈ ops := by
  induction ops generalizing s with
  | nil => simp
  | cons op ops ih =>
    rw [exec_cons, ih, step_checked_iff, List.mem_cons, or_assoc]
    constructor
    · rintro (h | h | h)
      · exact Or.inl h
      · exact Or.inr (Or.inl h.symm)
      · exact Or.inr (Or.inr h)
    · rintro (h | h | h)
      · exact Or.inl h
      · exact Or.inr (Or.inl h.symm)
      · exact Or.inr (Or.inr h)

/-- The verdict of `checkNetwork` is one of the two constants 1 and -1. -/
theorem checkNetwork_verdict (c : MetaData) (net : Net) (p : Probes) :
    (c.checkNetwork net p).1 = 1 ∨ (c.checkNetwork net p).1 = -1 := by
  unfold MetaData.checkNetwork
  dsimp only
  split
  · exact Or.inl rfl
  · split
    · exact Or.inr rfl
    · split
      · exact Or.inr rfl
      · exact Or.inl rfl

/-- Every run of `checkNetwork` is counted once. -/
theorem checkNetwork_calls (c : MetaData) (net : Net) (p : Probes) :
    (c.checkNetwork net p).2.calls = p.calls + 1 := by
  unfold MetaData.checkNetwork
  dsimp only
  split
  · rfl
  · split
    · rfl
    · split <;> rfl

/-- With an empty target `checkNetwork` answers 1 and sends nothing. -/
theorem checkNetwork_empty (c : MetaData) (net : Net) (p : Probes)
    (h : c.connectivityURL = "") :
    c.checkNetwork net p = (1, { p with calls := p.calls + 1 }) := by
  unfold MetaData.checkNetwork
  simp [h]

/-- With a non-empty target the verdict is decided by the probe alone. -/
theorem checkNetwork_nonempty (c : MetaData) (net : Net) (p : Probes)
    (h : c.connectivityURL ≠ "") :
    (c.checkNetwork net p).1 =
      if probeFails net c.connectivityURL then -1 else 1 := by
  unfold MetaData.checkNetwork probeFails
  simp only [h, if_false]
  cases NewRequest net MethodHead c.connectivityURL with
  | error e => rfl
  | ok req =>
    dsimp only
    cases net.Do { Timeout := net.TCPTimeout } req <;> rfl

/-- A call of `Connected` on a tracker whose verdict is already stored reads
the stored value and leaves tracker and instrumentation alone. -/
theorem Connected_cached (c : MetaData) (net : Net) (p : Probes)
    (h : c.connected ≠ 0) :
    c.Connected net p = (decide (c.connected > 0), c, p) := by
  unfold MetaData.Connected
  simp [h]

/-- A call of `Connected` on a tracker without a verdict runs `checkNetwork`
and stores what it returns. -/
theorem Connected_unknown (c : MetaData) (net : Net) (p : Probes)
    (h : c.connected = 0) :
    c.Connected net p =
      (decide ((c.checkNetwork net p).1 > 0),
        { c with connected := (c.checkNetwork net p).1 },
        (c.checkNetwork net p).2) := by
  unfold MetaData.Connected
  simp [h]

/-- The boolean returned by `Connected` is the sign test on the stored
value. -/
theorem Connected_result (c : MetaData) (net : Net) (p : Probes) :
    (c.Connected net p).1 = decide ((c.Connected net p).2.1.connected > 0) := by
  unfold MetaData.Connected
  split <;> rfl

/-- After `Connected` the stored value is not 0. -/
theorem Connected_known (c : MetaData) (net : Net) (p : Probes) :
    (c.Connected net p).2.1.connected ≠ 0 := by
  by_cases h : c.connected = 0
  · rw [Connected_unknown c net p h]
    rcases checkNetwork_verdict c net p with h1 | h1 <;> simp [h1]
  · rw [Connected_cached c net p h]
    exact h

/-- A positive stored value survives every call. -/
theorem step_connected_pos (s : Session) (op : Op) (h : s.c.connected > 0) :
    (s.step op).1.c.connected > 0 := by
  cases op with
  | ReportChecked tag => simpa [Session.step, MetaData.ReportChecked] using h
  | Checked tag => simpa [Session.step, MetaData.Checked] using h
  | ReportConnected => simp [Session.step, MetaData.ReportConnected]
  | Connected net =>
    have h0 : s.c.connected ≠ 0 := by omega
    simp only [Session.step, Connected_cached s.c net s.probes h0]
    exact h

/-- A positive stored value survives every sequence of calls. -/
theorem exec_connected_pos (s : Session) (ops : List Op)
    (h : s.c.connected > 0) : (s.exec ops).c.connected > 0 := by
  induction ops generalizing s with
  | nil => exact h
  | cons op ops ih =>
    rw [exec_cons]
    exact ih _ (step_connected_pos s op h)

/-- A stored verdict is never reset to unknown. -/
theorem step_connected_ne_zero (s : Session) (op : Op)
    (h : s.c.connected ≠ 0) : (s.step op).1.c.connected ≠ 0 := by
  cases op with
  | ReportChecked tag => simpa [Session.step, MetaData.ReportChecked] using h
  | Checked tag => simpa [Session.step, MetaData.Checked] using h
  | ReportConnected => simp [Session.step, MetaData.ReportConnected]
  | Connected net =>
    simp only [Session.step]
    exact Connected_known s.c net s.probes

/-- With a stored verdict no call touches the instrumentation. -/
theorem step_probes_of_known (s : Session) (op : Op)
    (h : s.c.connected ≠ 0) : (s.step op).1.probes = s.probes := by
  cases op with
  | ReportChecked tag => rfl
  | Checked tag => rfl
  | ReportConnected => rfl
  | Connected net =>
    simp only [Session.step, Connected_cached s.c net s.probes h]

/-- With a stored verdict no sequence of calls touches the
instrumentation. -/
theorem exec_probes_of_known (s : Session) (ops : List Op)
    (h : s.c.connected ≠ 0) : (s.exec ops).probes = s.probes := by
  induction ops generalizing s with
  | nil => rfl
  | cons op ops ih =>
    rw [exec_cons, ih _ (step_connected_ne_zero s op h),
      step_probes_of_known s op h]

/-- After a `Connected` call the session has a stored verdict. -/
theorem step_connected_ne_zero_of_Connected (s : Session) (net : Net) :
    (s.step (Op.Connected net)).1.c.connected ≠ 0 := by
  simp only [Session.step]
  exact Connected_known s.c net s.probes

/-- A sequence of calls runs `checkNetwork` at most once more. -/
theorem exec_calls_le (s : Session) (ops : List Op) :
    (s.exec ops).probes.calls ≤ s.probes.calls + 1 := by
  induction ops generalizing s with
  | nil => exact Nat.le_succ _
  | cons op ops ih =>
    rw [exec_cons]
    by_cases h : s.c.connected = 0
    · cases op with
      | ReportChecked tag => exact ih _
      | Checked tag => exact ih _
      | ReportConnected => exact ih _
      | Connected net =>
        rw [exec_probes_of_known _ ops (step_connected_ne_zero_of_Connected s net)]
        simp only [Session.step, Connected_unknown s.c net s.probes h,
          checkNetwork_calls]
        exact Nat.le_refl _
    · rw [exec_probes_of_known _ ops (step_connected_ne_zero s op h),
        step_probes_of_known s op h]
      exact Nat.le_succ _

/-- On a session that is connected, `Connected` answers true and changes
nothing. -/
theorem step_Connected_of_pos (s : Session) (net : Net)
    (h : s.c.connected > 0) : s.step (Op.Connected net) = (s, some true) := by
  have h0 : s.c.connected ≠ 0 := by omega
  simp only [Session.step, Connected_cached s.c net s.probes h0]
  simp [h]

/-- With an empty target the stored value never becomes negative. -/
theorem step_nonneg_of_empty (s : Session) (op : Op)
    (hu : s.c.connectivityURL = "") (h : 0 ≤ s.c.connected) :
    0 ≤ (s.step op).1.c.connected := by
  cases op with
  | ReportChecked tag => simpa [Session.step, MetaData.ReportChecked] using h
  | Checked tag => simpa [Session.step, MetaData.Checked] using h
  | ReportConnected => simp [Session.step, MetaData.ReportConnected]
  | Connected net =>
    by_cases h0 : s.c.connected = 0
    · simp [Session.step, Connected_unknown s.c net s.probes h0,
        checkNetwork_empty s.c net s.probes hu]
    · simp only [Session.step, Connected_cached s.c net s.probes h0]
      exact h

/-- With an empty target the stored value is never negative after a sequence
of calls. -/
theorem exec_nonneg_of_empty (s : Session) (ops : List Op)
    (hu : s.c.connectivityURL = "") (h : 0 ≤ s.c.connected) :
    0 ≤ (s.exec ops).c.connected := by
  induction ops generalizing s with
  | nil => exact h
  | cons op ops ih =>
    rw [exec_cons]
    exact ih _ (by rw [step_url]; exact hu) (step_nonneg_of_empty s op hu h)

/-- A call other than `ReportConnected` and `Connected` leaves the stored
verdict and the instrumentation alone. -/
theorem step_quiet (s : Session) (op : Op)
    (h1 : op.isReportConnected = false) (h2 : op.isConnected = false) :
    (s.step op).1.c.connected = s.c.connected ∧
      (s.step op).1.probes = s.probes := by
  cases op with
  | ReportChecked tag => exact ⟨rfl, rfl⟩
  | Checked tag => exact ⟨rfl, rfl⟩
  | ReportConnected => simp [Op.isReportConnected] at h1
  | Connected net => simp [Op.isConnected] at h2

/-- A sequence of `ReportChecked` and `Checked` calls leaves the stored
verdict and the instrumentation alone. -/
theorem exec_quiet (s : Session) (ops : List Op)
    (h : ∀ op ∈ ops, op.isReportConnected = false ∧ op.isConnected = false) :
    (s.exec ops).c.connected = s.c.connected ∧
      (s.exec ops).probes = s.probes := by
  induction ops generalizing s with
  | nil => exact ⟨rfl, rfl⟩
  | cons op ops ih =>
    have hop := h op (List.mem_cons_self _ _)
    have hrest := ih (s.step op).1 (fun o ho => h o (List.mem_cons_of_mem _ ho))
    have hs := step_quiet s op hop.1 hop.2
    rw [exec_cons]
    exact ⟨hrest.1.trans hs.1, hrest.2.trans hs.2⟩

/-- A negative stored value survives every call except `ReportConnected`. -/
theorem step_connected_neg (s : Session) (op : Op)
    (h : s.c.connected < 0) (h1 : op.isReportConnected = false) :
    (s.step op).1.c.connected < 0 := by
  cases op with
  | ReportChecked tag => simpa [Session.step, MetaData.ReportChecked] using h
  | Checked tag => simpa [Session.step, MetaData.Checked] using h
  | ReportConnected => simp [Op.isReportConnected] at h1
  | Connected net =>
    have h0 : s.c.connected ≠ 0 := by omega
    simp only [Session.step, Connected_cached s.c net s.probes h0]
    exact h

/-- A negative stored value survives every sequence of calls without
`ReportConnected`. -/
theorem exec_connected_neg (s : Session) (ops : List Op)
    (h : s.c.connected < 0) (h1 : ∀ op ∈ ops, op.isReportConnected = false) :
    (s.exec ops).c.connected < 0 := by
  induction ops generalizing s with
  | nil => exact h
  | cons op ops ih =>
    rw [exec_cons]
    exact ih _ (step_connected_neg s op h (h1 op (List.mem_cons_self _ _)))
      (fun o ho => h1 o (List.mem_cons_of_mem _ ho))

/-- On a session that is disconnected, `Connected` answers false and changes
nothing. -/
theorem step_Connected_of_neg (s : Session) (net : Net)
    (h : s.c.connected < 0) : s.step (Op.Connected net) = (s, some false) := by
  have h0 : s.c.connected ≠ 0 := by omega
  have h1 : ¬ s.c.connected > 0 := by omega
  simp only [Session.step, Connected_cached s.c net s.probes h0]
  simp [h1]

/-- The first `Connected` call on a session without a verdict and with a
non-empty target: one run of `checkNetwork`, the probe decides. -/
theorem step_Connected_probe (s : Session) (net : Net)
    (h0 : s.c.connected = 0) (hu : s.c.connectivityURL ≠ "") :
    (s.step (Op.Connected net)).2
        = some (!probeFails net s.c.connectivityURL) ∧
      (s.step (Op.Connected net)).1.c.connected
        = (if probeFails net s.c.connectivityURL then -1 else 1) ∧
      (s.step (Op.Connected net)).1.probes.calls = s.probes.calls + 1 := by
  simp only [Session.step, Connected_unknown s.c net s.probes h0,
    checkNetwork_calls, checkNetwork_nonempty s.c net s.probes hu]
  cases probeFails net s.c.connectivityURL <;> simp

/-! ## C1: `Checked` reflects exactly the earlier `ReportChecked` calls -/

/-- C1. On a tracker built by `NewMetaData`, after any sequence `pre` of
calls, `Checked t` returns true if and only if `pre` contains
`ReportChecked t`. In particular it is false on the fresh tracker, a
`ReportChecked u` with `u ≠ t` does not change the answer for `t`, and from
any state in which `Checked t` is true it stays true after every call. -/
theorem C1_checked_iff_reported (ctx : Context) (url : String) (t : String) :
    (∀ pre : List Op,
      (((Session.fresh ctx url).exec pre).c.Checked t).1 = true ↔
        Op.ReportChecked t ∈ pre) ∧
    ((Session.fresh ctx url).c.Checked t).1 = false ∧
    (∀ (s : Session) (u : String), u ≠ t →
      ((s.step (Op.ReportChecked u)).1.c.Checked t).1 = (s.c.Checked t).1) ∧
    (∀ (s : Session) (ops : List Op), (s.c.Checked t).1 = true →
      ((s.exec ops).c.Checked t).1 = true) := by
  refine ⟨?_, rfl, ?_, ?_⟩
  · intro pre
    have h := exec_checked_iff (Session.fresh ctx url) pre t
    simpa [MetaData.Checked, Session.fresh, NewMetaData, mapGet] using h
  · intro s u hu
    have h2 : ¬ t = u := fun e => hu e.symm
    simp [Session.step, MetaData.Checked, MetaData.ReportChecked, mapGet_mapSet, h2]
  · intro s ops h
    exact (exec_checked_iff s ops t).2 (Or.inl h)

/-- C1 at a concrete session: tag "b" is reported, tag "a" is queried. -/
theorem C1_checked_iff_reported_witness :
    ((((Session.fresh Context.background "http://x").exec
        [Op.ReportChecked "b", Op.Connected Net.unreachable,
          Op.ReportChecked "a", Op.ReportConnected]).c.Checked "a").1 = true) ∧
    ((((Session.fresh Context.background "http://x").exec
        [Op.ReportChecked "b", Op.Connected Net.unreachable]).c.Checked "a").1
      = false) :=
  ⟨((C1_checked_iff_reported Context.background "http://x" "a").1 _).2
      (by simp),
   by
    have h := (C1_checked_iff_reported Context.background "http://x" "a").1
      [Op.ReportChecked "b", Op.Connected Net.unreachable]
    have hn : Op.ReportChecked "a" ∉
        [Op.ReportChecked "b", Op.Connected Net.unreachable] := by simp
    cases hc : (((Session.fresh Context.background "http://x").exec
        [Op.ReportChecked "b", Op.Connected Net.unreachable]).c.Checked "a").1
    · rfl
    · exact absurd (h.1 hc) hn⟩

/-! ## C2: a reported connection is never lost -/

/-- C2. On a tracker built by `NewMetaData`, once `ReportConnected` has been
called, every later `Connected` call returns true: whatever calls `pre` came
before the report, whatever calls `mid` came after it (each `Connected` among
them with its own network behaviour), and whatever network `net` the queried
call would meet. -/
theorem C2_connected_after_report (ctx : Context) (url : String)
    (pre mid : List Op) (net : Net) :
    (((Session.fresh ctx url).exec (pre ++ Op.ReportConnected :: mid)).step
      (Op.Connected net)).2 = some true := by
  rw [exec_append, exec_cons]
  have h1 : ((((Session.fresh ctx url).exec pre).step
      Op.ReportConnected).1).c.connected > 0 := by
    simp [Session.step, MetaData.ReportConnected]
  rw [step_Connected_of_pos _ net (exec_connected_pos _ mid h1)]

/-! ## C3: an empty probe target always reads as connected -/

/-- C3. On a tracker built by `NewMetaData` with an empty `connectivityURL`,
`Connected` returns true after every sequence of calls, the empty sequence
(fresh tracker, no reports) included. -/
theorem C3_empty_target_connected (ctx : Context) (ops : List Op) (net : Net) :
    (((Session.fresh ctx "").exec ops).step (Op.Connected net)).2
      = some true := by
  have hu : ((Session.fresh ctx "").exec ops).c.connectivityURL = "" := by
    rw [exec_url]; rfl
  have hn : 0 ≤ ((Session.fresh ctx "").exec ops).c.connected :=
    exec_nonneg_of_empty _ ops rfl (le_refl _)
  by_cases h0 : ((Session.fresh ctx "").exec ops).c.connected = 0
  · simp [Session.step, Connected_unknown _ net _ h0,
      checkNetwork_empty _ net _ hu]
  · have hp : ((Session.fresh ctx "").exec ops).c.connected > 0 := by omega
    rw [step_Connected_of_pos _ net hp]

/-! ## C4: connectivity is never downgraded -/

/-- C4. From every state whose `connected` field is positive, each of the
four calls (and hence every sequence of calls) leaves the `connected` field
positive. -/
theorem C4_connected_monotonic (s : Session) (h : s.c.connected > 0) :
    (∀ op : Op, (s.step op).1.c.connected > 0) ∧
    (∀ ops : List Op, (s.exec ops).c.connected > 0) :=
  ⟨fun op => step_connected_pos s op h, fun ops => exec_connected_pos s ops h⟩

/-- C4 at the state reached by a successful probe of "http://x". -/
theorem C4_connected_monotonic_witness :
    ((Session.fresh Context.background "http://x").exec
        [Op.Connected (Net.answering 204)]).c.connected > 0 ∧
    ((Session.fresh Context.background "http://x").exec
        [Op.Connected (Net.answering 204), Op.Connected Net.unreachable,
          Op.ReportChecked "a"]).c.connected > 0 :=
  ⟨by decide,
   (C4_connected_monotonic
      ((Session.fresh Context.background "http://x").exec
        [Op.Connected (Net.answering 204)]) (by decide)).2
      [Op.Connected Net.unreachable, Op.ReportChecked "a"]⟩

/-! ## C5: at most one probe per session -/

/-- C5. On a tracker built by `NewMetaData`, every sequence of calls runs
`checkNetwork` at most once. Moreover, from any state with a stored verdict
(`connected ≠ 0`, positive or negative), no sequence of calls runs
`checkNetwork` or sends a request again. -/
theorem C5_probe_at_most_once (ctx : Context) (url : String) :
    (∀ ops : List Op, ((Session.fresh ctx url).exec ops).probes.calls ≤ 1) ∧
    (∀ (s : Session) (ops : List Op), s.c.connected ≠ 0 →
      (s.exec ops).probes = s.probes) :=
  ⟨fun ops => exec_calls_le (Session.fresh ctx url) ops,
   fun s ops h => exec_probes_of_known s ops h⟩

/-- C5 on a session that queries connectivity three times over a network
that changes behaviour, and at the state left by a failed probe. -/
theorem C5_probe_at_most_once_witness :
    ((Session.fresh Context.background "http://x").exec
      [Op.Connected Net.unreachable, Op.Connected (Net.answering 200),
        Op.Connected Net.malformed]).probes.calls ≤ 1 ∧
    ((Session.fresh Context.background "http://x").exec
      [Op.Connected Net.unreachable]).c.connected ≠ 0 ∧
    (((Session.fresh Context.background "http://x").exec
      [Op.Connected Net.unreachable]).exec
      [Op.Connected (Net.answering 200), Op.ReportConnected]).probes
      = ((Session.fresh Context.background "http://x").exec
        [Op.Connected Net.unreachable]).probes :=
  ⟨(C5_probe_at_most_once Context.background "http://x").1 _,
   by decide,
   (C5_probe_at_most_once Context.background "http://x").2 _ _ (by decide)⟩

/-! ## C6: a failed probe is cached -/

/-- C6. Take a tracker built by `NewMetaData` with a non-empty target, let
only `ReportChecked` and `Checked` calls (`pre`) precede the first
`Connected` call, and let the probe of that call fail. Then nothing was
probed before it, the call runs `checkNetwork` exactly once and returns
false; and after any further calls `mid` without `ReportConnected`, the next
`Connected` call returns false as well, whatever the network would answer
now, with the probe count still 1 and no further request sent. -/
theorem C6_failed_probe_cached (ctx : Context) (url : String) (hu : url ≠ "")
    (net1 net2 : Net) (hf : probeFails net1 url = true) (pre mid : List Op)
    (hpre : ∀ op ∈ pre, op.isReportConnected = false ∧ op.isConnected = false)
    (hmid : ∀ op ∈ mid, op.isReportConnected = false) :
    ((Session.fresh ctx url).exec pre).probes.calls = 0 ∧
    (((Session.fresh ctx url).exec pre).step (Op.Connected net1)).2
      = some false ∧
    (((Session.fresh ctx url).exec pre).step (Op.Connected net1)).1.probes.calls
      = 1 ∧
    ((((((Session.fresh ctx url).exec pre).step (Op.Connected net1)).1).exec
      mid).step (Op.Connected net2)).2 = some false ∧
    ((((((Session.fresh ctx url).exec pre).step (Op.Connected net1)).1).exec
      mid).step (Op.Connected net2)).1.probes
      = (((Session.fresh ctx url).exec pre).step (Op.Connected net1)).1.probes := by
  have hq := exec_quiet (Session.fresh ctx url) pre hpre
  have h0 : ((Session.fresh ctx url).exec pre).c.connected = 0 := hq.1
  have hc : ((Session.fresh ctx url).exec pre).probes.calls = 0 := by
    rw [hq.2]; rfl
  have hu2 : ((Session.fresh ctx url).exec pre).c.connectivityURL ≠ "" := by
    rw [exec_url]; exact hu
  have hurl : ((Session.fresh ctx url).exec pre).c.connectivityURL = url := by
    rw [exec_url]; rfl
  have hp := step_Connected_probe _ net1 h0 hu2
  rw [hurl, hf] at hp
  have hneg : ((((Session.fresh ctx url).exec pre).step
      (Op.Connected net1)).1).c.connected < 0 := by
    rw [hp.2.1]; decide
  have hneg2 := exec_connected_neg _ mid hneg hmid
  have hne : ((((Session.fresh ctx url).exec pre).step
      (Op.Connected net1)).1).c.connected ≠ 0 := by omega
  refine ⟨hc, by simpa using hp.1, by rw [hp.2.2, hc], ?_, ?_⟩
  · rw [step_Connected_of_neg _ net2 hneg2]
  · rw [step_Connected_of_neg _ net2 hneg2]
    exact exec_probes_of_known _ mid hne

/-- C6 on target "http://x": the first query meets a network that refuses
the request, the second one a network that would answer. -/
theorem C6_failed_probe_cached_witness :
    ((Session.fresh Context.background "http://x").step
      (Op.Connected Net.unreachable)).2 = some false ∧
    ((Session.fresh Context.background "http://x").step
      (Op.Connected Net.unreachable)).1.probes.calls = 1 ∧
    (((((Session.fresh Context.background "http://x").step
      (Op.Connected Net.unreachable)).1).exec [Op.ReportChecked "a"]).step
      (Op.Connected (Net.answering 200))).2 = some false :=
  have h := C6_failed_probe_cached Context.background "http://x" (by decide)
    Net.unreachable (Net.answering 200) (by decide) [] [Op.ReportChecked "a"]
    (by simp) (by simp [Op.isReportConnected])
  ⟨h.2.1, h.2.2.1, h.2.2.2.1⟩

/-! ## C7: a successful probe is cached -/

/-- C7. Take a tracker built by `NewMetaData` with a non-empty target, let
only `ReportChecked` and `Checked` calls (`pre`) precede the first
`Connected` call, and let the probe of that call succeed. Then the call
returns true, stores the value 1 and is the first and only run of
`checkNetwork`; after any further calls `rest` whatsoever, a `Connected` call
returns true and neither runs `checkNetwork` nor sends a request. -/
theorem C7_successful_probe_cached (ctx : Context) (url : String)
    (hu : url ≠ "") (net1 net2 : Net) (hs : probeFails net1 url = false)
    (pre rest : List Op)
    (hpre : ∀ op ∈ pre, op.isReportConnected = false ∧ op.isConnected = false) :
    (((Session.fresh ctx url).exec pre).step (Op.Connected net1)).2
      = some true ∧
    (((Session.fresh ctx url).exec pre).step (Op.Connected net1)).1.c.connected
      = 1 ∧
    (((Session.fresh ctx url).exec pre).step (Op.Connected net1)).1.probes.calls
      = 1 ∧
    ((((((Session.fresh ctx url).exec pre).step (Op.Connected net1)).1).exec
      rest).step (Op.Connected net2)).2 = some true ∧
    ((((((Session.fresh ctx url).exec pre).step (Op.Connected net1)).1).exec
      rest).step (Op.Connected net2)).1.probes
      = (((Session.fresh ctx url).exec pre).step (Op.Connected net1)).1.probes := by
  have hq := exec_quiet (Session.fresh ctx url) pre hpre
  have h0 : ((Session.fresh ctx url).exec pre).c.connected = 0 := hq.1
  have hc : ((Session.fresh ctx url).exec pre).probes.calls = 0 := by
    rw [hq.2]; rfl
  have hu2 : ((Session.fresh ctx url).exec pre).c.connectivityURL ≠ "" := by
    rw [exec_url]; exact hu
  have hurl : ((Session.fresh ctx url).exec pre).c.connectivityURL = url := by
    rw [exec_url]; rfl
  have hp := step_Connected_probe _ net1 h0 hu2
  rw [hurl, hs] at hp
  have hpos : ((((Session.fresh ctx url).exec pre).step
      (Op.Connected net1)).1).c.connected > 0 := by
    rw [hp.2.1]; decide
  have hpos2 := exec_connected_pos _ rest hpos
  have hne : ((((Session.fresh ctx url).exec pre).step
      (Op.Connected net1)).1).c.connected ≠ 0 := by omega
  refine ⟨by simpa using hp.1, by simpa using hp.2.1, by rw [hp.2.2, hc], ?_, ?_⟩
  · rw [step_Connected_of_pos _ net2 hpos2]
  · rw [step_Connected_of_pos _ net2 hpos2]
    exact exec_probes_of_known _ rest hne

/-- C7 on target "http://x": the first query is answered with status 500,
the second one meets a network that refuses every request. -/
theorem C7_successful_probe_cached_witness :
    ((Session.fresh Context.background "http://x").step
      (Op.Connected (Net.answering 500))).2 = some true ∧
    ((Session.fresh Context.background "http://x").step
      (Op.Connected (Net.answering 500))).1.probes.calls = 1 ∧
    (((((Session.fresh Context.background "http://x").step
      (Op.Connected (Net.answering 500))).1).exec
      [Op.Connected Net.unreachable]).step
      (Op.Connected Net.unreachable)).2 = some true :=
  have h := C7_successful_probe_cached Context.background "http://x"
    (by decide) (Net.answering 500) Net.unreachable (by decide) []
    [Op.Connected Net.unreachable] (by simp)
  ⟨h.1, h.2.2.1, h.2.2.2.1⟩

/-! ## C8: a report upgrades a disconnected tracker -/

/-- C8. From every state whose `connected` field is negative (a state in
which `Connected` answers false), `ReportConnected` makes the field positive (it stores 1) and keeps the
checked map, and the next `Connected` call returns true without running
`checkNetwork` or sending a request, whatever the network would answer. -/
theorem C8_report_upgrades_disconnected (s : Session)
    (h : s.c.connected < 0) (net : Net) :
    (s.step (Op.Connected net)).2 = some false ∧
    (s.step Op.ReportConnected).1.c.connected = 1 ∧
    (s.step Op.ReportConnected).1.c.connected > 0 ∧
    ((s.step Op.ReportConnected).1.step (Op.Connected net)).2 = some true ∧
    ((s.step Op.ReportConnected).1.step (Op.Connected net)).1.probes
      = s.probes := by
  have h1 : (s.step Op.ReportConnected).1.c.connected = 1 := rfl
  have hpos : (s.step Op.ReportConnected).1.c.connected > 0 := by
    rw [h1]; decide
  refine ⟨by rw [step_Connected_of_neg s net h], h1, hpos, ?_, ?_⟩
  · rw [step_Connected_of_pos _ net hpos]
  · rw [step_Connected_of_pos _ net hpos]
    rfl

/-- C8 at the state left by a failed probe of "http://x". -/
theorem C8_report_upgrades_disconnected_witness :
    ((Session.fresh Context.background "http://x").exec
      [Op.Connected Net.unreachable]).c.connected < 0 ∧
    ((((Session.fresh Context.background "http://x").exec
      [Op.Connected Net.unreachable]).step Op.ReportConnected).1.step
      (Op.Connected Net.unreachable)).2 = some true :=
  ⟨by decide,
   (C8_report_upgrades_disconnected
      ((Session.fresh Context.background "http://x").exec
        [Op.Connected Net.unreachable]) (by decide) Net.unreachable).2.2.2.1⟩

/-! ## C9: the verdict of `checkNetwork` -/

/-- C9. For a non-empty target, `checkNetwork` returns -1 exactly when
`http.NewRequest` returns an error or `client.Do` returns an error, returns 1
exactly when `client.Do` returns a response, returns 1 for every response
whatever its status code, and never returns 0. -/
theorem C9_checkNetwork_verdict (c : MetaData) (net : Net) (p : Probes)
    (hu : c.connectivityURL ≠ "") :
    ((c.checkNetwork net p).1 = -1 ↔
      ((∃ e, NewRequest net MethodHead c.connectivityURL = .error e) ∨
        (∃ req e, NewRequest net MethodHead c.connectivityURL = .ok req ∧
          net.Do { Timeout := net.TCPTimeout } req = .error e))) ∧
    ((c.checkNetwork net p).1 = 1 ↔
      (∃ req resp, NewRequest net MethodHead c.connectivityURL = .ok req ∧
        net.Do { Timeout := net.TCPTimeout } req = .ok resp)) ∧
    (∀ req resp, NewRequest net MethodHead c.connectivityURL = .ok req →
      net.Do { Timeout := net.TCPTimeout } req = .ok resp →
      (c.checkNetwork net p).1 = 1) ∧
    (c.checkNetwork net p).1 ≠ 0 := by
  unfold MetaData.checkNetwork
  simp only [hu, if_false]
  cases hreq : NewRequest net MethodHead c.connectivityURL with
  | error e => simp
  | ok req =>
    dsimp only
    cases hdo : net.Do { Timeout := net.TCPTimeout } req with
    | error e =>
      simp only [hdo]
      refine ⟨by simp [hdo], ?_, ?_, by decide⟩
      · constructor
        · intro hc; exact absurd hc (by decide)
        · rintro ⟨r, resp, hr, hd⟩
          cases hr
          rw [hdo] at hd
          cases hd
      · intro r resp hr hd
        cases hr
        rw [hdo] at hd
        cases hd
    | ok resp => simp [hdo]

/-- C9 on target "http://x" with a network that answers status 404: the
verdict is 1. -/
theorem C9_checkNetwork_verdict_witness :
    ((NewMetaData Context.background "http://x").checkNetwork
      (Net.answering 404) { calls := 0, sent := [] }).1 = 1 :=
  (C9_checkNetwork_verdict (NewMetaData Context.background "http://x")
    (Net.answering 404) { calls := 0, sent := [] } (by decide)).2.2.1
    { ctx := Context.background, method := "HEAD", url := "http://x" }
    { StatusCode := 404 } rfl rfl

/-! ## C10: only a failed probe disconnects -/

/-- C10. From every state whose `connected` field is not negative,
`ReportChecked`, `Checked` and `ReportConnected` lead to a state whose field
is not negative, and `Connected` leads to a negative field exactly when the
field was 0, the target is non-empty and the probe failed. -/
theorem C10_disconnected_only_by_probe (s : Session)
    (h : ¬ s.c.connected < 0) :
    (∀ tag, ¬ (s.step (Op.ReportChecked tag)).1.c.connected < 0) ∧
    (∀ tag, ¬ (s.step (Op.Checked tag)).1.c.connected < 0) ∧
    ¬ (s.step Op.ReportConnected).1.c.connected < 0 ∧
    (∀ net, (s.step (Op.Connected net)).1.c.connected < 0 ↔
      (s.c.connected = 0 ∧ s.c.connectivityURL ≠ "" ∧
        probeFails net s.c.connectivityURL = true)) := by
  refine ⟨fun tag => h, fun tag => h, ?_, ?_⟩
  · simp [Session.step, MetaData.ReportConnected]
  · intro net
    by_cases h0 : s.c.connected = 0
    · by_cases hu : s.c.connectivityURL = ""
      · simp [Session.step, Connected_unknown s.c net s.probes h0,
          checkNetwork_empty s.c net s.probes hu, hu]
      · have hp := (step_Connected_probe s net h0 hu).2.1
        rw [hp]
        cases probeFails net s.c.connectivityURL <;> simp [h0, hu]
    · have hpos : s.c.connected > 0 := by omega
      rw [step_Connected_of_pos s net hpos]
      simp [h0, h]

/-- C10 at the fresh tracker for "http://x": a refused probe disconnects. -/
theorem C10_disconnected_only_by_probe_witness :
    ¬ (Session.fresh Context.background "http://x").c.connected < 0 ∧
    ((Session.fresh Context.background "http://x").step
      (Op.Connected Net.unreachable)).1.c.connected < 0 :=
  ⟨by decide,
   ((C10_disconnected_only_by_probe
      (Session.fresh Context.background "http://x") (by decide)).2.2.2
      Net.unreachable).2 ⟨rfl, by decide, by decide⟩⟩

/-! ## Further facts about single steps -/

/-- A call other than `Connected` leaves the instrumentation alone. -/
theorem step_probes_of_not_Connected (s : Session) (op : Op)
    (h : op.isConnected = false) : (s.step op).1.probes = s.probes := by
  cases op with
  | ReportChecked tag => rfl
  | Checked tag => rfl
  | ReportConnected => rfl
  | Connected net => simp [Op.isConnected] at h

/-- A sequence without `Connected` calls leaves the instrumentation alone. -/
theorem exec_probes_of_not_Connected (s : Session) (ops : List Op)
    (h : ∀ op ∈ ops, op.isConnected = false) :
    (s.exec ops).probes = s.probes := by
  induction ops generalizing s with
  | nil => rfl
  | cons op ops ih =>
    rw [exec_cons, ih _ (fun o ho => h o (List.mem_cons_of_mem _ ho)),
      step_probes_of_not_Connected s op (h op (List.mem_cons_self _ _))]

/-- The three values the source ever stores in `connected`. -/
theorem step_connected_values (s : Session) (op : Op)
    (h : s.c.connected = -1 ∨ s.c.connected = 0 ∨ s.c.connected = 1) :
    (s.step op).1.c.connected = -1 ∨ (s.step op).1.c.connected = 0 ∨
      (s.step op).1.c.connected = 1 := by
  cases op with
  | ReportChecked tag => exact h
  | Checked tag => exact h
  | ReportConnected => exact Or.inr (Or.inr rfl)
  | Connected net =>
    by_cases h0 : s.c.connected = 0
    · simp only [Session.step, Connected_unknown s.c net s.probes h0]
      rcases checkNetwork_verdict s.c net s.probes with h1 | h1
      · exact Or.inr (Or.inr h1)
      · exact Or.inl h1
    · simp only [Session.step, Connected_cached s.c net s.probes h0]
      exact h

/-- Along every sequence of calls `connected` stays among -1, 0 and 1. -/
theorem exec_connected_values (s : Session) (ops : List Op)
    (h : s.c.connected = -1 ∨ s.c.connected = 0 ∨ s.c.connected = 1) :
    (s.exec ops).c.connected = -1 ∨ (s.exec ops).c.connected = 0 ∨
      (s.exec ops).c.connected = 1 := by
  induction ops generalizing s with
  | nil => exact h
  | cons op ops ih =>
    rw [exec_cons]
    exact ih _ (step_connected_values s op h)

/-- On a session whose stored value is 1, `ReportConnected` changes
nothing. -/
theorem step_ReportConnected_of_one (s : Session) (h : s.c.connected = 1) :
    (s.step Op.ReportConnected).1 = s := by
  obtain ⟨c, p⟩ := s
  obtain ⟨ctx, url, conn, chk⟩ := c
  simp only at h
  subst h
  rfl

/-! ## C11: an early report makes the probe unnecessary -/

/-- C11. On a tracker built by `NewMetaData` (any target, empty or not), let
`ReportConnected` be called before any `Connected` call: the calls `pre`
before it contain no `Connected`. Then, whatever calls `rest` follow, the
session never runs `checkNetwork` and never sends a request, and a
`Connected` call after them returns true, still without a probe. -/
theorem C11_report_before_query_no_probe (ctx : Context) (url : String)
    (pre rest : List Op) (net : Net)
    (hpre : ∀ op ∈ pre, op.isConnected = false) :
    ((Session.fresh ctx url).exec (pre ++ Op.ReportConnected :: rest)).probes
      = { calls := 0, sent := [] } ∧
    (((Session.fresh ctx url).exec (pre ++ Op.ReportConnected :: rest)).step
      (Op.Connected net)).2 = some true ∧
    (((Session.fresh ctx url).exec (pre ++ Op.ReportConnected :: rest)).step
      (Op.Connected net)).1.probes = { calls := 0, sent := [] } := by
  have hp : ((Session.fresh ctx url).exec pre).probes
      = { calls := 0, sent := [] } :=
    exec_probes_of_not_Connected _ pre hpre
  have h1 : ((((Session.fresh ctx url).exec pre).step
      Op.ReportConnected).1).c.connected > 0 := by
    simp [Session.step, MetaData.ReportConnected]
  have hne : ((((Session.fresh ctx url).exec pre).step
      Op.ReportConnected).1).c.connected ≠ 0 := by omega
  have hprobes : ((Session.fresh ctx url).exec
      (pre ++ Op.ReportConnected :: rest)).probes
      = { calls := 0, sent := [] } := by
    rw [exec_append, exec_cons, exec_probes_of_known _ rest hne]
    exact hp
  have hpos : ((Session.fresh ctx url).exec
      (pre ++ Op.ReportConnected :: rest)).c.connected > 0 := by
    rw [exec_append, exec_cons]
    exact exec_connected_pos _ rest h1
  refine ⟨hprobes, ?_, ?_⟩
  · rw [step_Connected_of_pos _ net hpos]
  · rw [step_Connected_of_pos _ net hpos]
    exact hprobes

/-- C11 on target "http://x": a report, then two queries over a network that
refuses every request. -/
theorem C11_report_before_query_no_probe_witness :
    ((Session.fresh Context.background "http://x").exec
      ([Op.ReportChecked "a"] ++ Op.ReportConnected ::
        [Op.Connected Net.unreachable])).probes
      = { calls := 0, sent := [] } ∧
    (((Session.fresh Context.background "http://x").exec
      ([Op.ReportChecked "a"] ++ Op.ReportConnected ::
        [Op.Connected Net.unreachable])).step
      (Op.Connected Net.unreachable)).2 = some true :=
  have h := C11_report_before_query_no_probe Context.background "http://x"
    [Op.ReportChecked "a"] [Op.Connected Net.unreachable] Net.unreachable
    (by simp [Op.isConnected])
  ⟨h.1, h.2.1⟩

/-! ## C13: `Checked` is a read -/

/-- C13. For every state and every tag, `Checked` leaves the whole state as
it was (checked map, `connected`, probe instrumentation), returns the map
entry read with the zero value for an absent key, and a tag without an entry
still has no entry afterwards (the answer is then false). -/
theorem C13_checked_pure_read (s : Session) (tag : String) :
    (s.step (Op.Checked tag)).1 = s ∧
    (s.c.Checked tag).2 = s.c ∧
    (s.step (Op.Checked tag)).2 = some (mapGet s.c.checked tag) ∧
    (s.c.checked tag = none →
      (s.step (Op.Checked tag)).1.c.checked tag = none ∧
        (s.step (Op.Checked tag)).2 = some false) := by
  refine ⟨rfl, rfl, rfl, ?_⟩
  intro h
  refine ⟨h, ?_⟩
  simp [Session.step, MetaData.Checked, mapGet, h]

/-- C13 on a fresh tracker: the tag "a" was never reported. -/
theorem C13_checked_pure_read_witness :
    (Session.fresh Context.background "http://x").c.checked "a" = none ∧
    ((Session.fresh Context.background "http://x").step
      (Op.Checked "a")).1.c.checked "a" = none ∧
    ((Session.fresh Context.background "http://x").step
      (Op.Checked "a")).2 = some false :=
  ⟨rfl, (C13_checked_pure_read
    (Session.fresh Context.background "http://x") "a").2.2.2 rfl⟩

/-! ## C14: `ReportChecked` is an idempotent insertion -/

/-- C14. For every state and tag, a second `ReportChecked tag` right after
the first changes nothing; after `ReportChecked tag` the map holds true for
`tag` and is unchanged at every other key, so a key is checked afterwards
exactly when it is `tag` or was checked before; `connected`, the target and
the probe instrumentation are unchanged. -/
theorem C14_reportChecked_idempotent (s : Session) (tag : String) :
    ((s.step (Op.ReportChecked tag)).1.step (Op.ReportChecked tag)).1
      = (s.step (Op.ReportChecked tag)).1 ∧
    (s.step (Op.ReportChecked tag)).1.c.checked tag = some true ∧
    (∀ k, k ≠ tag →
      (s.step (Op.ReportChecked tag)).1.c.checked k = s.c.checked k) ∧
    (∀ k, mapGet (s.step (Op.ReportChecked tag)).1.c.checked k = true ↔
      (k = tag ∨ mapGet s.c.checked k = true)) ∧
    (s.step (Op.ReportChecked tag)).1.c.connected = s.c.connected ∧
    (s.step (Op.ReportChecked tag)).1.c.connectivityURL
      = s.c.connectivityURL ∧
    (s.step (Op.ReportChecked tag)).1.probes = s.probes := by
  refine ⟨?_, ?_, ?_, ?_, rfl, rfl, rfl⟩
  · have hm : mapSet (mapSet s.c.checked tag true) tag true
        = mapSet s.c.checked tag true := by
      funext k
      unfold mapSet
      split <;> simp_all
    simp only [Session.step, MetaData.ReportChecked, hm]
  · simp [Session.step, MetaData.ReportChecked, mapSet]
  · intro k hk
    simp [Session.step, MetaData.ReportChecked, mapSet, hk]
  · intro k
    simp only [Session.step, MetaData.ReportChecked, mapGet_mapSet]
    by_cases hk : k = tag <;> simp [hk]

/-- C14 on a fresh tracker: reporting "a" leaves "b" without an entry. -/
theorem C14_reportChecked_idempotent_witness :
    ((Session.fresh Context.background "http://x").step
      (Op.ReportChecked "a")).1.c.checked "b"
      = (Session.fresh Context.background "http://x").c.checked "b" :=
  (C14_reportChecked_idempotent
    (Session.fresh Context.background "http://x") "a").2.2.1 "b" (by decide)

/-! ## C15: `ReportConnected` is an idempotent upgrade -/

/-- C15. From every state, `ReportConnected` stores 1 (connected) and leaves
the checked map, the target and the probe instrumentation unchanged; a second
`ReportConnected` right after the first changes nothing. On a state whose
stored value is 1, and hence on every connected state reachable from
`NewMetaData`, the resulting state equals the prior state. -/
theorem C15_reportConnected_idempotent :
    (∀ s : Session,
      (s.step Op.ReportConnected).1.c.connected = 1 ∧
      (s.step Op.ReportConnected).1.c.connected > 0 ∧
      (s.step Op.ReportConnected).1.c.checked = s.c.checked ∧
      (s.step Op.ReportConnected).1.c.connectivityURL = s.c.connectivityURL ∧
      (s.step Op.ReportConnected).1.probes = s.probes ∧
      ((s.step Op.ReportConnected).1.step Op.ReportConnected).1
        = (s.step Op.ReportConnected).1) ∧
    (∀ s : Session, s.c.connected = 1 → (s.step Op.ReportConnected).1 = s) ∧
    (∀ (ctx : Context) (url : String) (ops : List Op),
      ((Session.fresh ctx url).exec ops).c.connected > 0 →
      (((Session.fresh ctx url).exec ops).step Op.ReportConnected).1
        = (Session.fresh ctx url).exec ops) := by
  refine ⟨fun s => ⟨rfl, by simp [Session.step, MetaData.ReportConnected],
    rfl, rfl, rfl, rfl⟩, step_ReportConnected_of_one, ?_⟩
  intro ctx url ops hpos
  apply step_ReportConnected_of_one
  have hv := exec_connected_values (Session.fresh ctx url) ops
    (Or.inr (Or.inl rfl))
  omega

/-- C15 at the state reached by a successful probe of "http://x". -/
theorem C15_reportConnected_idempotent_witness :
    ((Session.fresh Context.background "http://x").exec
      [Op.Connected (Net.answering 200)]).c.connected > 0 ∧
    (((Session.fresh Context.background "http://x").exec
      [Op.Connected (Net.answering 200)]).step Op.ReportConnected).1
      = (Session.fresh Context.background "http://x").exec
        [Op.Connected (Net.answering 200)] :=
  ⟨by decide,
   C15_reportConnected_idempotent.2.2 Context.background "http://x"
    [Op.Connected (Net.answering 200)] (by decide)⟩

/-! ## C17: what `Connected` leaves behind -/

/-- C17. For every state, after `Connected` the stored value is not 0, the
returned boolean is the test `connected > 0` on the stored value, and the
checked map is unchanged; and in every state reachable from `NewMetaData`
the stored value is -1, 0 or 1. -/
theorem C17_connected_postcondition :
    (∀ (s : Session) (net : Net),
      (s.step (Op.Connected net)).1.c.connected ≠ 0 ∧
      (s.step (Op.Connected net)).2
        = some (decide ((s.step (Op.Connected net)).1.c.connected > 0)) ∧
      (s.step (Op.Connected net)).1.c.checked = s.c.checked) ∧
    (∀ (ctx : Context) (url : String) (ops : List Op),
      ((Session.fresh ctx url).exec ops).c.connected = -1 ∨
      ((Session.fresh ctx url).exec ops).c.connected = 0 ∨
      ((Session.fresh ctx url).exec ops).c.connected = 1) := by
  refine ⟨fun s net => ⟨step_connected_ne_zero_of_Connected s net, ?_, ?_⟩,
    fun ctx url ops => exec_connected_values _ ops (Or.inr (Or.inl rfl))⟩
  · simp only [Session.step]
    rw [Connected_result s.c net s.probes]
  · simp [Session.step]

/-! ## C12: the context carried by the probe request -/

/-- A run of `checkNetwork` adds at most the request built by
`http.NewRequest`, which carries the background context. -/
theorem checkNetwork_sent (c : MetaData) (net : Net) (p : Probes)
    (req : Request) (h : req ∈ (c.checkNetwork net p).2.sent) :
    req ∈ p.sent ∨
      req = { ctx := Context.background, method := MethodHead,
              url := c.connectivityURL } := by
  by_cases hu : c.connectivityURL = ""
  · rw [checkNetwork_empty c net p hu] at h
    exact Or.inl h
  · unfold MetaData.checkNetwork NewRequest at h
    simp only [hu, if_false] at h
    cases hparse : net.parseURL c.connectivityURL with
    | false =>
      simp only [hparse] at h
      exact Or.inl h
    | true =>
      simp only [hparse, if_true] at h
      cases hdo : net.Do { Timeout := net.TCPTimeout }
          { ctx := Context.background, method := MethodHead,
            url := c.connectivityURL } with
      | error e =>
        simp only [hdo, List.mem_cons] at h
        rcases h with h | h
        · exact Or.inr h
        · exact Or.inl h
      | ok resp =>
        simp only [hdo, List.mem_cons] at h
        rcases h with h | h
        · exact Or.inr h
        · exact Or.inl h

/-- One call adds at most a request with the background context for the
target of the tracker. -/
theorem step_sent (s : Session) (op : Op) (req : Request)
    (h : req ∈ (s.step op).1.probes.sent) :
    req ∈ s.probes.sent ∨
      req = { ctx := Context.background, method := MethodHead,
              url := s.c.connectivityURL } := by
  cases op with
  | ReportChecked tag => exact Or.inl h
  | Checked tag => exact Or.inl h
  | ReportConnected => exact Or.inl h
  | Connected net =>
    by_cases h0 : s.c.connected = 0
    · simp only [Session.step, Connected_unknown s.c net s.probes h0] at h
      exact checkNetwork_sent s.c net s.probes req h
    · simp only [Session.step, Connected_cached s.c net s.probes h0] at h
      exact Or.inl h

/-- Every request sent during a sequence of calls was sent before it or is
the background-context request for the target of the tracker. -/
theorem exec_sent (s : Session) (ops : List Op) (req : Request)
    (h : req ∈ (s.exec ops).probes.sent) :
    req ∈ s.probes.sent ∨
      req = { ctx := Context.background, method := MethodHead,
              url := s.c.connectivityURL } := by
  induction ops generalizing s with
  | nil => exact Or.inl h
  | cons op ops ih =>
    rw [exec_cons] at h
    rcases ih _ h with h1 | h1
    · exact step_sent s op req h1
    · rw [step_url] at h1
      exact Or.inr h1

/-- C12, as stated, fails: on a tracker built with the scope 1 for target
"http://x", the request sent by the first `Connected` call does not carry the
context of the tracker. -/
theorem C12_counterexample :
    ¬ (∀ req ∈ ((Session.fresh (Context.scope 1) "http://x").exec
        [Op.Connected (Net.answering 200)]).probes.sent,
      req.ctx = ((Session.fresh (Context.scope 1) "http://x").exec
        [Op.Connected (Net.answering 200)]).c.Context) := by
  intro h
  have h1 := h { ctx := Context.background, method := "HEAD", url := "http://x" }
    (by decide)
  exact absurd h1 (by decide)

/-- C12, amended. Every request sent in a session on a tracker built by
`NewMetaData ctx url` is the `HEAD` request for `url` built by
`http.NewRequest`, and it carries the background context whatever `ctx` is;
the context of the tracker plays no part in `checkNetwork`: replacing it
changes neither the verdict nor the requests sent. -/
theorem C12_probe_request_background (ctx : Context) (url : String) :
    (∀ (ops : List Op), ∀ req ∈ ((Session.fresh ctx url).exec ops).probes.sent,
      req.ctx = Context.background ∧ req.method = MethodHead ∧
        req.url = url) ∧
    (∀ (c : MetaData) (other : Context) (net : Net) (p : Probes),
      ({ c with Context := other } : MetaData).checkNetwork net p
        = c.checkNetwork net p) := by
  refine ⟨?_, fun c other net p => rfl⟩
  intro ops req h
  rcases exec_sent _ ops req h with h1 | h1
  · simp [Session.fresh] at h1
  · subst h1
    exact ⟨rfl, rfl, rfl⟩

/-- C12, amended, on a tracker built with the scope 1 for "http://x": the
request sent carries the background context. -/
theorem C12_probe_request_background_witness :
    ((Session.fresh (Context.scope 1) "http://x").exec
      [Op.Connected (Net.answering 200)]).probes.sent
      = [{ ctx := Context.background, method := "HEAD", url := "http://x" }] ∧
    (({ ctx := Context.background, method := "HEAD", url := "http://x" }
      : Request).ctx = Context.background) :=
  ⟨by decide,
   ((C12_probe_request_background (Context.scope 1) "http://x").1
      [Op.Connected (Net.answering 200)]
      { ctx := Context.background, method := "HEAD", url := "http://x" }
      (by decide)).1⟩

/-! ## C18: when `Connected` answers false -/

/-- From a disconnected session, a later `Connected` call answers false
exactly when no `ReportConnected` came in between. -/
theorem exec_neg_Connected_false_iff (s : Session) (ops : List Op) (net : Net)
    (h : s.c.connected < 0) :
    ((s.exec ops).step (Op.Connected net)).2 = some false ↔
      ∀ op ∈ ops, op.isReportConnected = false := by
  induction ops generalizing s with
  | nil =>
    rw [exec_nil, step_Connected_of_neg s net h]
    simp
  | cons op ops ih =>
    rw [exec_cons]
    by_cases hr : op.isReportConnected = true
    · have hop : op = Op.ReportConnected := by
        cases op <;> simp_all [Op.isReportConnected]
      subst hop
      have hpos : ((s.step Op.ReportConnected).1).c.connected > 0 := by
        simp [Session.step, MetaData.ReportConnected]
      rw [step_Connected_of_pos _ net (exec_connected_pos _ ops hpos)]
      simp [Op.isReportConnected]
    · have hr2 : op.isReportConnected = false := by simpa using hr
      rw [ih _ (step_connected_neg s op h hr2)]
      simp [hr2]

/-- From a connected session every later `Connected` call answers true. -/
theorem exec_pos_Connected_true (s : Session) (ops : List Op) (net : Net)
    (h : s.c.connected > 0) :
    ((s.exec ops).step (Op.Connected net)).2 = some true := by
  rw [step_Connected_of_pos _ net (exec_connected_pos s ops h)]

/-- From a session without a verdict: a `Connected` call after `ops` answers
false exactly when the target is non-empty, `ops` has no `ReportConnected`,
and the first `Connected` call (in `ops`, or else the queried one) met a
failing probe. -/
theorem exec_unknown_Connected_false_iff (s : Session) (ops : List Op)
    (net : Net) (h0 : s.c.connected = 0) :
    ((s.exec ops).step (Op.Connected net)).2 = some false ↔
      (s.c.connectivityURL ≠ "" ∧
        (∀ op ∈ ops, op.isReportConnected = false) ∧
        ∃ net0, firstConnected (ops ++ [Op.Connected net]) = some net0 ∧
          probeFails net0 s.c.connectivityURL = true) := by
  induction ops generalizing s with
  | nil =>
    rw [exec_nil]
    by_cases hu : s.c.connectivityURL = ""
    · simp [Session.step, Connected_unknown s.c net s.probes h0,
        checkNetwork_empty s.c net s.probes hu, hu]
    · rw [(step_Connected_probe s net h0 hu).1]
      simp [firstConnected, hu]
  | cons op ops ih =>
    rw [exec_cons]
    cases op with
    | ReportChecked tag =>
      have h1 : ((s.step (Op.ReportChecked tag)).1).c.connected = 0 := h0
      rw [ih _ h1, step_url]
      simp [firstConnected, Op.isReportConnected]
    | Checked tag =>
      have h1 : ((s.step (Op.Checked tag)).1).c.connected = 0 := h0
      rw [ih _ h1, step_url]
      simp [firstConnected, Op.isReportConnected]
    | ReportConnected =>
      have hpos : ((s.step Op.ReportConnected).1).c.connected > 0 := by
        simp [Session.step, MetaData.ReportConnected]
      rw [exec_pos_Connected_true _ ops net hpos]
      simp [Op.isReportConnected]
    | Connected net0 =>
      by_cases hu : s.c.connectivityURL = ""
      · have hpos : ((s.step (Op.Connected net0)).1).c.connected > 0 := by
          simp [Session.step, Connected_unknown s.c net0 s.probes h0,
            checkNetwork_empty s.c net0 s.probes hu]
        rw [exec_pos_Connected_true _ ops net hpos]
        simp [hu]
      · have hp := (step_Connected_probe s net0 h0 hu).2.1
        cases hf : probeFails net0 s.c.connectivityURL with
        | true =>
          rw [hf] at hp
          have hneg : ((s.step (Op.Connected net0)).1).c.connected < 0 := by
            rw [hp]; decide
          rw [exec_neg_Connected_false_iff _ ops net hneg]
          simp [firstConnected, Op.isReportConnected, hu, hf]
        | false =>
          rw [hf] at hp
          have hpos : ((s.step (Op.Connected net0)).1).c.connected > 0 := by
            rw [hp]; decide
          rw [exec_pos_Connected_true _ ops net hpos]
          simp [firstConnected, hf]

/-- C18. On a tracker built by `NewMetaData ctx url`, a `Connected` call
after any calls `pre` returns false if and only if `url` is non-empty, `pre`
contains no `ReportConnected`, and the first `Connected` call of the session
(the first one in `pre`, or the queried call itself when `pre` has none) met
a failing probe. Consequently no state reachable on a tracker with an empty
target has a negative `connected`. -/
theorem C18_false_iff_failed_probe (ctx : Context) (url : String) :
    (∀ (pre : List Op) (net : Net),
      (((Session.fresh ctx url).exec pre).step (Op.Connected net)).2
          = some false ↔
        (url ≠ "" ∧ (∀ op ∈ pre, op.isReportConnected = false) ∧
          ∃ net0, firstConnected (pre ++ [Op.Connected net]) = some net0 ∧
            probeFails net0 url = true)) ∧
    (∀ ops : List Op, ¬ ((Session.fresh ctx "").exec ops).c.connected < 0) := by
  refine ⟨fun pre net =>
    exec_unknown_Connected_false_iff (Session.fresh ctx url) pre net rfl, ?_⟩
  intro ops
  have h := exec_nonneg_of_empty (Session.fresh ctx "") ops rfl (le_refl _)
  omega

/-- C18 on target "http://x": the first query meets a refusing network, so a
later query answers false although the network would answer by then. -/
theorem C18_false_iff_failed_probe_witness :
    (((Session.fresh Context.background "http://x").exec
      [Op.ReportChecked "a", Op.Connected Net.unreachable]).step
      (Op.Connected (Net.answering 200))).2 = some false :=
  ((C18_false_iff_failed_probe Context.background "http://x").1
    [Op.ReportChecked "a", Op.Connected Net.unreachable]
    (Net.answering 200)).2
    ⟨by decide, by simp [Op.isReportConnected],
      Net.unreachable, rfl, by decide⟩

/-! ## C16: concurrent `Connected` calls -/

@[simp] theorem setPc_same (pcs : Nat → Pc) (i : Nat) (pc : Pc) :
    setPc pcs i pc i = pc := by
  simp [setPc]

theorem setPc_other (pcs : Nat → Pc) (i j : Nat) (pc : Pc) (h : j ≠ i) :
    setPc pcs i pc j = pcs j := by
  simp [setPc, h]

/-- The six statements a goroutine can perform, with what each reads and
writes. -/
theorem stepThread_cases (st st' : Conc) (i : Nat) (net : Net)
    (h : st.stepThread i net = some st') :
    i < st.n ∧ st'.n = st.n ∧
    ((st.pcs i = Pc.start ∧ st.mutex = false ∧ st'.mutex = true ∧
        st'.pcs = setPc st.pcs i Pc.test ∧ st'.c = st.c ∧
        st'.probes = st.probes) ∨
     (st.pcs i = Pc.test ∧ st.c.connected = 0 ∧ st'.mutex = st.mutex ∧
        st'.pcs = setPc st.pcs i Pc.probe ∧ st'.c = st.c ∧
        st'.probes = st.probes) ∨
     (st.pcs i = Pc.test ∧ st.c.connected ≠ 0 ∧ st'.mutex = st.mutex ∧
        st'.pcs = setPc st.pcs i Pc.ret ∧ st'.c = st.c ∧
        st'.probes = st.probes) ∨
     (st.pcs i = Pc.probe ∧ st'.mutex = st.mutex ∧
        st'.pcs = setPc st.pcs i Pc.ret ∧
        st'.c = { st.c with connected := (st.c.checkNetwork net st.probes).1 } ∧
        st'.probes = (st.c.checkNetwork net st.probes).2) ∨
     (st.pcs i = Pc.ret ∧ st'.mutex = st.mutex ∧
        st'.pcs = setPc st.pcs i (Pc.unlocking (decide (st.c.connected > 0))) ∧
        st'.c = st.c ∧ st'.probes = st.probes) ∨
     (∃ r, st.pcs i = Pc.unlocking r ∧ st'.mutex = false ∧
        st'.pcs = setPc st.pcs i (Pc.done r) ∧ st'.c = st.c ∧
        st'.probes = st.probes)) := by
  unfold Conc.stepThread at h
  by_cases hi : i < st.n
  · rw [if_pos hi] at h
    refine ⟨hi, ?_⟩
    cases hpc : st.pcs i with
    | start =>
      rw [hpc] at h
      dsimp only at h
      by_cases hm : st.mutex = true
      · simp [hm] at h
      · have hm2 : st.mutex = false := by simpa using hm
        simp only [hm2] at h
        cases h
        exact ⟨rfl, Or.inl ⟨rfl, hm2, rfl, rfl, rfl, rfl⟩⟩
    | test =>
      rw [hpc] at h
      dsimp only at h
      by_cases h0 : st.c.connected = 0
      · rw [if_pos h0] at h
        cases h
        exact ⟨rfl, Or.inr (Or.inl ⟨rfl, h0, rfl, rfl, rfl, rfl⟩)⟩
      · rw [if_neg h0] at h
        cases h
        exact ⟨rfl, Or.inr (Or.inr (Or.inl ⟨rfl, h0, rfl, rfl, rfl, rfl⟩))⟩
    | probe =>
      rw [hpc] at h
      dsimp only at h
      cases h
      exact ⟨rfl, Or.inr (Or.inr (Or.inr (Or.inl ⟨rfl, rfl, rfl, rfl, rfl⟩)))⟩
    | ret =>
      rw [hpc] at h
      dsimp only at h
      cases h
      exact ⟨rfl, Or.inr (Or.inr (Or.inr (Or.inr (Or.inl
        ⟨rfl, rfl, rfl, rfl, rfl⟩))))⟩
    | unlocking r =>
      rw [hpc] at h
      dsimp only at h
      cases h
      exact ⟨rfl, Or.inr (Or.inr (Or.inr (Or.inr (Or.inr
        ⟨r, rfl, rfl, rfl, rfl, rfl⟩))))⟩
    | done r =>
      rw [hpc] at h
      simp at h
  · rw [if_neg hi] at h
    cases h

/-- Moving a goroutine beyond the range counted changes nothing. -/
theorem remainingUpTo_setPc_ge (pcs : Nat → Pc) (i : Nat) (pc : Pc) (k : Nat)
    (h : k ≤ i) : remainingUpTo (setPc pcs i pc) k = remainingUpTo pcs k := by
  induction k with
  | zero => rfl
  | succ k ih =>
    have hk : k ≠ i := by omega
    simp only [remainingUpTo, ih (by omega), setPc_other pcs i k pc hk]

/-- Moving a counted goroutine exchanges its share of the total. -/
theorem remainingUpTo_setPc_lt (pcs : Nat → Pc) (i : Nat) (pc : Pc) (k : Nat)
    (h : i < k) :
    remainingUpTo (setPc pcs i pc) k + (pcs i).remaining
      = remainingUpTo pcs k + pc.remaining := by
  induction k with
  | zero => omega
  | succ k ih =>
    by_cases hk : i = k
    · subst hk
      simp only [remainingUpTo, remainingUpTo_setPc_ge pcs i pc i (le_refl _),
        setPc_same]
      omega
    · have hk2 : k ≠ i := fun e => hk e.symm
      have := ih (by omega)
      simp only [remainingUpTo, setPc_other pcs i k pc hk2]
      omega

/-- Every statement performed brings the session closer to its end. -/
theorem stepThread_remaining (st st' : Conc) (i : Nat) (net : Net)
    (h : st.stepThread i net = some st') : st'.remaining < st.remaining := by
  obtain ⟨hi, hn, hc⟩ := stepThread_cases st st' i net h
  unfold Conc.remaining
  rw [hn]
  rcases hc with ⟨hpc, _, _, hp, _⟩ | ⟨hpc, _, _, hp, _⟩ | ⟨hpc, _, _, hp, _⟩ |
    ⟨hpc, _, hp, _⟩ | ⟨hpc, _, hp, _⟩ | ⟨r, hpc, _, hp, _⟩ <;>
  · have := remainingUpTo_setPc_lt st.pcs i (st'.pcs i) st.n hi
    rw [hp] at this ⊢
    simp only [setPc_same, hpc, Pc.remaining] at this
    omega

/-- A goroutine between `Lock` and `Unlock` is the only one, and the mutex
is held. -/
theorem mutexInv_owner (st : Conc) (hM : st.mutexInv) (i : Nat)
    (hi : i < st.n) (hh : (st.pcs i).holds = true) :
    st.mutex = true ∧ ∀ j, j < st.n → j ≠ i → (st.pcs j).holds = false := by
  rcases hM with ⟨_, hall⟩ | ⟨hm, i0, _, _, hothers⟩
  · rw [hall i hi] at hh
    cases hh
  · by_cases he : i = i0
    · subst he
      exact ⟨hm, hothers⟩
    · rw [hothers i hi he] at hh
      cases hh

/-- A fresh concurrent session satisfies the invariant. -/
theorem Inv_fresh (ctx : Context) (url : String) (n : Nat) :
    (Conc.fresh ctx url n).Inv url :=
  ⟨rfl, Or.inl ⟨rfl, fun _ _ => rfl⟩, Or.inl ⟨rfl, rfl, fun _ _ => Or.inl rfl⟩⟩

/-- Mutual exclusion is preserved by every statement. -/
theorem mutexInv_step (st st' : Conc) (i : Nat) (net : Net)
    (hM : st.mutexInv) (h : st.stepThread i net = some st') :
    st'.mutexInv := by
  obtain ⟨hi, hn, hc⟩ := stepThread_cases st st' i net h
  have inner : ∀ pc : Pc, (st.pcs i).holds = true → pc.holds = true →
      st'.mutex = st.mutex → st'.pcs = setPc st.pcs i pc → st'.mutexInv := by
    intro pc hold hnew hm hp
    obtain ⟨hmt, hothers⟩ := mutexInv_owner st hM i hi hold
    refine Or.inr ⟨by rw [hm, hmt], i, by rw [hn]; exact hi, ?_, ?_⟩
    · rw [hp, setPc_same]; exact hnew
    · intro j hj hji
      rw [hp, setPc_other _ _ _ _ hji]
      exact hothers j (by rw [← hn]; exact hj) hji
  rcases hc with ⟨hpc, hm, hm', hp, _⟩ | ⟨hpc, _, hm', hp, _⟩ |
    ⟨hpc, _, hm', hp, _⟩ | ⟨hpc, hm', hp, _⟩ | ⟨hpc, hm', hp, _⟩ |
    ⟨r, hpc, hm', hp, _⟩
  · rcases hM with ⟨_, hall⟩ | ⟨hmt, _⟩
    · refine Or.inr ⟨hm', i, by rw [hn]; exact hi, ?_, ?_⟩
      · rw [hp, setPc_same]; rfl
      · intro j hj hji
        rw [hp, setPc_other _ _ _ _ hji]
        exact hall j (by rw [← hn]; exact hj)
    · rw [hm] at hmt
      cases hmt
  · exact inner Pc.probe (by rw [hpc]; rfl) rfl hm' hp
  · exact inner Pc.ret (by rw [hpc]; rfl) rfl hm' hp
  · exact inner Pc.ret (by rw [hpc]; rfl) rfl hm' hp
  · exact inner (Pc.unlocking (decide (st.c.connected > 0)))
      (by rw [hpc]; rfl) rfl hm' hp
  · obtain ⟨_, hothers⟩ := mutexInv_owner st hM i hi (by rw [hpc]; rfl)
    refine Or.inl ⟨hm', ?_⟩
    intro j hj
    by_cases hji : j = i
    · subst hji
      rw [hp, setPc_same]; rfl
    · rw [hp, setPc_other _ _ _ _ hji]
      exact hothers j (by rw [← hn]; exact hj) hji

/-- Moving one goroutine without touching tracker or instrumentation keeps
the verdict invariant, provided the new position fits the stored value. -/
theorem verdictInv_move (st st' : Conc) (i : Nat) (pc : Pc)
    (hn : st'.n = st.n) (hc : st'.c = st.c) (hp : st'.probes = st.probes)
    (hpcs : st'.pcs = setPc st.pcs i pc) (hV : st.verdictInv)
    (h1 : st.c.connected = 0 → (pc = Pc.start ∨ pc = Pc.test ∨ pc = Pc.probe))
    (h2 : st.c.connected < 0 →
      (pc ≠ Pc.probe ∧ pc ≠ Pc.unlocking true ∧ pc ≠ Pc.done true)) :
    st'.verdictInv := by
  rcases hV with ⟨h0, hcalls, hall⟩ | ⟨hneg, hcalls, hall⟩
  · refine Or.inl ⟨by rw [hc]; exact h0, by rw [hp]; exact hcalls, ?_⟩
    intro j hj
    by_cases hji : j = i
    · subst hji
      rw [hpcs, setPc_same]
      exact h1 h0
    · rw [hpcs, setPc_other _ _ _ _ hji]
      exact hall j (by rw [← hn]; exact hj)
  · refine Or.inr ⟨by rw [hc]; exact hneg, by rw [hp]; exact hcalls, ?_⟩
    intro j hj
    by_cases hji : j = i
    · subst hji
      rw [hpcs, setPc_same]
      exact h2 hneg
    · rw [hpcs, setPc_other _ _ _ _ hji]
      exact hall j (by rw [← hn]; exact hj)

/-- The invariant is preserved by every statement performed over a network
on which the probe of the target fails. -/
theorem Inv_step (url : String) (st st' : Conc) (i : Nat) (net : Net)
    (hu : url ≠ "") (hf : probeFails net url = true) (hI : st.Inv url)
    (h : st.stepThread i net = some st') : st'.Inv url := by
  obtain ⟨hurl, hM, hV⟩ := hI
  have hM' := mutexInv_step st st' i net hM h
  obtain ⟨hi, hn, hc⟩ := stepThread_cases st st' i net h
  rcases hc with ⟨hpc, _, _, hp, hcc, hpr⟩ | ⟨hpc, h0, _, hp, hcc, hpr⟩ |
    ⟨hpc, h0, _, hp, hcc, hpr⟩ | ⟨hpc, _, hp, hcc, hpr⟩ |
    ⟨hpc, _, hp, hcc, hpr⟩ | ⟨r, hpc, _, hp, hcc, hpr⟩
  · exact ⟨by rw [hcc]; exact hurl, hM',
      verdictInv_move st st' i Pc.test hn hcc hpr hp hV
        (fun _ => Or.inr (Or.inl rfl)) (fun _ => by simp)⟩
  · exact ⟨by rw [hcc]; exact hurl, hM',
      verdictInv_move st st' i Pc.probe hn hcc hpr hp hV
        (fun _ => Or.inr (Or.inr rfl)) (fun hneg => by omega)⟩
  · exact ⟨by rw [hcc]; exact hurl, hM',
      verdictInv_move st st' i Pc.ret hn hcc hpr hp hV
        (fun hz => absurd hz h0) (fun _ => by simp)⟩
  · refine ⟨by rw [hcc]; exact hurl, hM', ?_⟩
    rcases hV with ⟨h0, hcalls, hall⟩ | ⟨_, _, hall⟩
    · have hne : st.c.connectivityURL ≠ "" := by rw [hurl]; exact hu
      have hv := checkNetwork_nonempty st.c net st.probes hne
      rw [hurl, hf] at hv
      simp only [if_true] at hv
      obtain ⟨_, hothers⟩ := mutexInv_owner st hM i hi (by rw [hpc]; rfl)
      refine Or.inr ⟨?_, ?_, ?_⟩
      · rw [hcc]
        show (st.c.checkNetwork net st.probes).1 < 0
        rw [hv]; decide
      · rw [hpr, checkNetwork_calls, hcalls]
      · intro j hj
        by_cases hji : j = i
        · subst hji
          rw [hp, setPc_same]
          simp
        · rw [hp, setPc_other _ _ _ _ hji]
          have hj2 : j < st.n := by rw [← hn]; exact hj
          have hnh := hothers j hj2 hji
          rcases hall j hj2 with hs | hs | hs
          · rw [hs]; simp
          · rw [hs] at hnh; cases hnh
          · rw [hs] at hnh; cases hnh
    · exact absurd hpc (hall i hi).1
  · have hneg : st.c.connected < 0 := by
      rcases hV with ⟨_, _, hall⟩ | ⟨hneg, _, _⟩
      · rcases hall i hi with hs | hs | hs <;> rw [hpc] at hs <;> cases hs
      · exact hneg
    have hd : decide (st.c.connected > 0) = false := by
      simp only [decide_eq_false_iff_not]; omega
    refine ⟨by rw [hcc]; exact hurl, hM',
      verdictInv_move st st' i _ hn hcc hpr hp hV
        (fun hz => by omega) (fun _ => ?_)⟩
    rw [hd]
    simp
  · have hr : r = false := by
      rcases hV with ⟨_, _, hall⟩ | ⟨_, _, hall⟩
      · rcases hall i hi with hs | hs | hs <;> rw [hpc] at hs <;> cases hs
      · have := (hall i hi).2.1
        rw [hpc] at this
        cases r
        · rfl
        · exact absurd rfl this
    have hneg : st.c.connected < 0 := by
      rcases hV with ⟨_, _, hall⟩ | ⟨hneg, _, _⟩
      · rcases hall i hi with hs | hs | hs <;> rw [hpc] at hs <;> cases hs
      · exact hneg
    subst hr
    exact ⟨by rw [hcc]; exact hurl, hM',
      verdictInv_move st st' i (Pc.done false) hn hcc hpr hp hV
        (fun hz => by omega) (fun _ => by simp)⟩

/-- Running one more entry of a schedule. -/
theorem run_cons (st : Conc) (x : Nat × Net) (sched : List (Nat × Net)) :
    st.run (x :: sched) = ((st.stepThread x.1 x.2).getD st).run sched := rfl

/-- Running two schedules one after the other. -/
theorem run_append (st : Conc) (xs ys : List (Nat × Net)) :
    st.run (xs ++ ys) = (st.run xs).run ys := by
  simp [Conc.run, List.foldl_append]

/-- No statement changes the number of goroutines. -/
theorem run_n (st : Conc) (sched : List (Nat × Net)) :
    (st.run sched).n = st.n := by
  induction sched generalizing st with
  | nil => rfl
  | cons x sched ih =>
    rw [run_cons, ih]
    cases h : st.stepThread x.1 x.2 with
    | none => rfl
    | some st' => exact (stepThread_cases st st' x.1 x.2 h).2.1

/-- The invariant holds along every schedule over failing networks. -/
theorem Inv_run (url : String) (st : Conc) (sched : List (Nat × Net))
    (hu : url ≠ "") (hf : ∀ x ∈ sched, probeFails x.2 url = true)
    (hI : st.Inv url) : (st.run sched).Inv url := by
  induction sched generalizing st with
  | nil => exact hI
  | cons x sched ih =>
    rw [run_cons]
    apply ih _ (fun y hy => hf y (List.mem_cons_of_mem _ hy))
    cases h : st.stepThread x.1 x.2 with
    | none => exact hI
    | some st' =>
      exact Inv_step url st st' x.1 x.2 hu (hf x (List.mem_cons_self _ _)) hI h

/-- The meaning of `allDone`. -/
theorem allDone_iff (st : Conc) :
    st.allDone = true ↔ ∀ j, j < st.n → (st.pcs j).isDone = true := by
  simp [Conc.allDone, List.all_eq_true, List.mem_range]

/-- No deadlock: while some goroutine has not returned, some goroutine can
perform its next statement. -/
theorem Inv_progress (url : String) (st : Conc) (net : Net) (hI : st.Inv url)
    (hnd : st.allDone = false) :
    ∃ i, i < st.n ∧ (st.stepThread i net).isSome = true := by
  obtain ⟨_, hM, _⟩ := hI
  rcases hM with ⟨hm, hall⟩ | ⟨_, i, hi, hh, _⟩
  · have hex : ∃ j, j < st.n ∧ (st.pcs j).isDone = false := by
      by_contra hcon
      have hd : st.allDone = true := by
        rw [allDone_iff]
        intro j hj
        cases hjd : (st.pcs j).isDone
        · exact absurd ⟨j, hj, hjd⟩ hcon
        · rfl
      rw [hd] at hnd
      cases hnd
    obtain ⟨j, hj, hjd⟩ := hex
    have hnh := hall j hj
    refine ⟨j, hj, ?_⟩
    unfold Conc.stepThread
    rw [if_pos hj]
    cases hpc : st.pcs j <;> rw [hpc] at hnh hjd <;>
      simp_all [Pc.holds, Pc.isDone]
  · refine ⟨i, hi, ?_⟩
    unfold Conc.stepThread
    rw [if_pos hi]
    cases hpc : st.pcs i with
    | start => rw [hpc] at hh; cases hh
    | test =>
      dsimp only
      split <;> rfl
    | probe => rfl
    | ret => rfl
    | unlocking r => rfl
    | done r => rw [hpc] at hh; cases hh

/-- Along a schedule the bound on the statements left never grows. -/
theorem run_remaining_le (st : Conc) (sched : List (Nat × Net)) :
    (st.run sched).remaining ≤ st.remaining := by
  induction sched generalizing st with
  | nil => exact le_refl _
  | cons x sched ih =>
    rw [run_cons]
    cases h : st.stepThread x.1 x.2 with
    | none => exact ih st
    | some st' =>
      exact le_trans (ih st') (le_of_lt (stepThread_remaining st st' x.1 x.2 h))

/-- A fresh session of `n` goroutines has five statements per goroutine
ahead. -/
theorem fresh_remaining (ctx : Context) (url : String) (n : Nat) :
    (Conc.fresh ctx url n).remaining = 5 * n := by
  unfold Conc.remaining Conc.fresh
  dsimp only
  induction n with
  | zero => rfl
  | succ n ih =>
    simp only [remainingUpTo, ih, Pc.remaining]
    omega

/-- From every state satisfying the invariant the session can be brought to
its end: some schedule, not longer than the bound, lets every goroutine
return. -/
theorem Inv_completes (url : String) (net : Net) (hu : url ≠ "")
    (hf : probeFails net url = true) (k : Nat) :
    ∀ st : Conc, st.Inv url → st.remaining ≤ k →
      ∃ sched : List (Nat × Net), (∀ x ∈ sched, x.2 = net) ∧
        sched.length ≤ k ∧ (st.run sched).allDone = true := by
  induction k with
  | zero =>
    intro st hI hk
    cases hd : st.allDone with
    | true => exact ⟨[], by simp, le_refl _, hd⟩
    | false =>
      obtain ⟨i, _, hs⟩ := Inv_progress url st net hI hd
      obtain ⟨st', hst'⟩ := Option.isSome_iff_exists.1 hs
      have := stepThread_remaining st st' i net hst'
      omega
  | succ k ih =>
    intro st hI hk
    cases hd : st.allDone with
    | true => exact ⟨[], by simp, Nat.zero_le _, hd⟩
    | false =>
      obtain ⟨i, _, hs⟩ := Inv_progress url st net hI hd
      obtain ⟨st', hst'⟩ := Option.isSome_iff_exists.1 hs
      have hlt := stepThread_remaining st st' i net hst'
      obtain ⟨sched, hnet, hlen, hdone⟩ :=
        ih st' (Inv_step url st st' i net hu hf hI hst') (by omega)
      refine ⟨(i, net) :: sched, ?_, ?_, ?_⟩
      · intro x hx
        rcases List.mem_cons.1 hx with hx | hx
        · rw [hx]
        · exact hnet x hx
      · simp only [List.length_cons]
        omega
      · rw [run_cons]
        simp only [hst', Option.getD_some]
        exact hdone

/-- A goroutine that runs alone through its five statements does what the
method `Connected` does in one piece. -/
theorem solo_Connected (st : Conc) (i : Nat) (net : Net) (hi : i < st.n)
    (hs : st.pcs i = Pc.start) (hm : st.mutex = false) :
    (st.run [(i, net), (i, net), (i, net), (i, net), (i, net)]).c
      = (st.c.Connected net st.probes).2.1 ∧
    (st.run [(i, net), (i, net), (i, net), (i, net), (i, net)]).probes
      = (st.c.Connected net st.probes).2.2 ∧
    (st.run [(i, net), (i, net), (i, net), (i, net), (i, net)]).pcs i
      = Pc.done (st.c.Connected net st.probes).1 ∧
    (st.run [(i, net), (i, net), (i, net), (i, net), (i, net)]).mutex
      = false := by
  by_cases h0 : st.c.connected = 0
  · rw [Connected_unknown st.c net st.probes h0]
    simp [Conc.run, Conc.stepThread, hi, hs, hm, h0]
  · rw [Connected_cached st.c net st.probes h0]
    simp [Conc.run, Conc.stepThread, hi, hs, hm, h0]

/-- C16. Let `n > 0` goroutines call `Connected` on a fresh tracker with a
non-empty target, under any schedule of their statements, over networks on
which the probe of the target fails. At every point reached: `checkNetwork`
has run at most once, and every call that has returned has returned false;
if all calls have returned, `checkNetwork` has run exactly once. The calls do
return: while some call has not returned some goroutine can move (the mutex
causes no deadlock), every statement performed lowers a bound that starts at
`5 * n`, and some continuation lets all `n` calls return, each the value
false, with `checkNetwork` run exactly once. -/
theorem C16_concurrent_connected (ctx : Context) (url : String)
    (hu : url ≠ "") (n : Nat) (hn : 0 < n) (sched : List (Nat × Net))
    (hf : ∀ x ∈ sched, probeFails x.2 url = true) :
    ((Conc.fresh ctx url n).run sched).probes.calls ≤ 1 ∧
    (∀ j, j < n → ∀ r,
      ((Conc.fresh ctx url n).run sched).pcs j = Pc.done r → r = false) ∧
    (((Conc.fresh ctx url n).run sched).allDone = true →
      ((Conc.fresh ctx url n).run sched).probes.calls = 1) ∧
    (((Conc.fresh ctx url n).run sched).allDone = false →
      ∀ net, ∃ i, i < n ∧
        (((Conc.fresh ctx url n).run sched).stepThread i net).isSome = true) ∧
    (∀ i net st',
      ((Conc.fresh ctx url n).run sched).stepThread i net = some st' →
      st'.remaining < ((Conc.fresh ctx url n).run sched).remaining) ∧
    ((Conc.fresh ctx url n).run sched).remaining ≤ 5 * n ∧
    (∀ net, probeFails net url = true →
      ∃ more : List (Nat × Net), (∀ x ∈ more, x.2 = net) ∧
        (((Conc.fresh ctx url n).run sched).run more).allDone = true ∧
        (((Conc.fresh ctx url n).run sched).run more).probes.calls = 1 ∧
        ∀ j, j < n →
          (((Conc.fresh ctx url n).run sched).run more).pcs j
            = Pc.done false) := by
  have hI := Inv_run url (Conc.fresh ctx url n) sched hu hf (Inv_fresh ctx url n)
  have hN : ((Conc.fresh ctx url n).run sched).n = n := run_n _ sched
  have safety : ∀ st : Conc, st.Inv url → st.n = n →
      st.probes.calls ≤ 1 ∧
      (∀ j, j < n → ∀ r, st.pcs j = Pc.done r → r = false) ∧
      (st.allDone = true → st.probes.calls = 1) := by
    intro st hst hstn
    obtain ⟨_, _, hV⟩ := hst
    rcases hV with ⟨_, hcalls, hall⟩ | ⟨_, hcalls, hall⟩
    · refine ⟨by omega, ?_, ?_⟩
      · intro j hj r hr
        rcases hall j (by rw [hstn]; exact hj) with hs | hs | hs <;>
          rw [hr] at hs <;> cases hs
      · intro hd
        have h0 := (allDone_iff st).1 hd 0 (by rw [hstn]; exact hn)
        rcases hall 0 (by rw [hstn]; exact hn) with hs | hs | hs <;>
          rw [hs] at h0 <;> cases h0
    · refine ⟨by omega, ?_, fun _ => hcalls⟩
      intro j hj r hr
      have := (hall j (by rw [hstn]; exact hj)).2.2
      rw [hr] at this
      cases r
      · rfl
      · exact absurd rfl this
  obtain ⟨s1, s2, s3⟩ := safety _ hI hN
  refine ⟨s1, s2, s3, ?_, ?_, ?_, ?_⟩
  · intro hnd net
    obtain ⟨i, hi, hs⟩ := Inv_progress url _ net hI hnd
    exact ⟨i, by rw [← hN]; exact hi, hs⟩
  · intro i net st' hst'
    exact stepThread_remaining _ st' i net hst'
  · rw [← fresh_remaining ctx url n]
    exact run_remaining_le _ sched
  · intro net hnet
    obtain ⟨more, hmore, _, hdone⟩ :=
      Inv_completes url net hu hnet _ _ hI (le_refl _)
    have hI2 := Inv_run url _ more hu
      (fun x hx => by rw [hmore x hx]; exact hnet) hI
    have hN2 : (((Conc.fresh ctx url n).run sched).run more).n = n := by
      rw [run_n, hN]
    obtain ⟨_, t2, t3⟩ := safety _ hI2 hN2
    refine ⟨more, hmore, hdone, t3 hdone, ?_⟩
    intro j hj
    have hjd := (allDone_iff _).1 hdone j (by rw [hN2]; exact hj)
    cases hpc : (((Conc.fresh ctx url n).run sched).run more).pcs j with
    | done r => rw [t2 j hj r hpc]
    | start => rw [hpc] at hjd; cases hjd
    | test => rw [hpc] at hjd; cases hjd
    | probe => rw [hpc] at hjd; cases hjd
    | ret => rw [hpc] at hjd; cases hjd
    | unlocking r => rw [hpc] at hjd; cases hjd

/-- C16 with two goroutines on target "http://x": the second one is picked
while the first holds the mutex and has to wait; both return false after one
probe. -/
theorem C16_concurrent_connected_witness :
    ((Conc.fresh Context.background "http://x" 2).run
      [(0, Net.unreachable), (1, Net.unreachable), (0, Net.unreachable),
        (0, Net.unreachable), (0, Net.unreachable), (0, Net.unreachable),
        (1, Net.unreachable), (1, Net.unreachable), (1, Net.unreachable),
        (1, Net.unreachable)]).allDone = true ∧
    ((Conc.fresh Context.background "http://x" 2).run
      [(0, Net.unreachable), (1, Net.unreachable), (0, Net.unreachable),
        (0, Net.unreachable), (0, Net.unreachable), (0, Net.unreachable),
        (1, Net.unreachable), (1, Net.unreachable), (1, Net.unreachable),
        (1, Net.unreachable)]).probes.calls = 1 :=
  ⟨by decide,
   (C16_concurrent_connected Context.background "http://x" (by decide) 2
      (by decide)
      [(0, Net.unreachable), (1, Net.unreachable), (0, Net.unreachable),
        (0, Net.unreachable), (0, Net.unreachable), (0, Net.unreachable),
        (1, Net.unreachable), (1, Net.unreachable), (1, Net.unreachable),
        (1, Net.unreachable)]
      (by
        intro x hx
        simp only [List.mem_cons, List.mem_singleton, List.not_mem_nil,
          or_false] at hx
        rcases hx with h | h | h | h | h | h | h | h | h | h <;>
          subst h <;> decide)).2.2.1 (by decide)⟩

end Healthcheck
